import Mathlib

/-!
# GPU lease orchestrator (`orchestrator/main.go`)

A shallow embedding of the resource pool of `orchestrator/main.go`: the slot
table `gpus`, the lease table `sessions`, and the operations
`NewOrchestrator`, `Status`, `Claim`, `Release` and `CleanupExpired`.

Modelling conventions.

* Go `int` and `time.Duration` values are integers (`Int`); where the source
  does arithmetic on them the 64-bit wrap-around is explicit (`wrap64`).
* A `time.Time` is an integer count of nanoseconds; the zero value
  `time.Time{}` is `zeroTime`.  Every call of `time.Now()` in the source is an
  explicit clock reading passed to the operation.
* The Go map `sessions` is an association list with one entry per key.  Go
  leaves the iteration order of a map unspecified, so the sweep
  `CleanupExpiredIn` takes the order in which the entries are visited.
* A run-time panic (`make` with a length that is negative or above the
  runtime's limit, slice index out of range) is the result `none`.  The platform
  is 64-bit; an allocation that `make` accepts is taken to succeed.
* `log.Printf` calls and the mutex are not part of the state.
* Slices are values, except the slice handed out by `Status`: that it shares
  its backing array with the table of the pool is modelled by `readStatus`.
* The HTTP handlers of `main` are functions from the pool state and the value of
  the `user_id` parameter to the new state and the response.
-/

namespace GpuPool

/-! ## Data model -/

/-- A `time.Time`, as a count of nanoseconds. -/
abbrev Time := Int

/-- The zero value `time.Time{}`. -/
def zeroTime : Time := 0

/-- Largest `time.Duration` (`math.MaxInt64` nanoseconds). -/
def maxDuration : Int := 2 ^ 63 - 1

/-- Smallest `time.Duration` (`math.MinInt64` nanoseconds). -/
def minDuration : Int := -(2 ^ 63)

/-- The method `t.Sub(u)` of `time.Time`: the duration `t - u`, saturated to the
range of `time.Duration`. -/
def Time.Sub (t u : Time) : Int :=
  if t - u > maxDuration then maxDuration
  else if t - u < minDuration then minDuration
  else t - u

/-- Two's complement wrap-around of a Go `int` (64 bits). -/
def wrap64 (x : Int) : Int := (x + 2 ^ 63) % 2 ^ 64 - 2 ^ 63

/-- The struct `GPU` (lines 16-22). -/
structure GPU where
  ID : Int
  Available : Bool
  UserID : String
  SessionStart : Time
  Port : Int
  deriving DecidableEq, Repr

/-- The struct `Session` (lines 24-30). -/
structure Session where
  UserID : String
  GPUID : Int
  Port : Int
  PIN : String
  StartedAt : Time
  deriving DecidableEq, Repr

/-- The struct `HTTPError` (lines 135-138). -/
structure HTTPError where
  Status : Int
  Message : String
  deriving DecidableEq, Repr

/-- The error value `ErrNoAvailableGPU` (line 131); `http.StatusServiceUnavailable` is 503. -/
def ErrNoAvailableGPU : HTTPError := { Status := 503, Message := "no GPU available" }

/-- The error value `ErrSessionNotFound` (line 132); `http.StatusNotFound` is 404. -/
def ErrSessionNotFound : HTTPError := { Status := 404, Message := "session not found" }

/-- The Go map `map[string]*Session`, as an association list.  The sessions are
never mutated after they are stored, so the pointers are modelled by their
values. -/
abbrev SessionMap := List (String × Session)

/-- Map lookup `m[k]` with the comma-ok form: `none` when `k` is not a key. -/
def sessionsGet : SessionMap → String → Option Session
  | [], _ => none
  | (k', v) :: rest, k => if k' = k then some v else sessionsGet rest k

/-- Map assignment `m[k] = v`: replaces the entry of `k`, or adds one. -/
def sessionsSet : SessionMap → String → Session → SessionMap
  | [], k, v => [(k, v)]
  | (k', v') :: rest, k, v =>
    if k' = k then (k, v) :: rest else (k', v') :: sessionsSet rest k v

/-- The builtin `delete(m, k)`. -/
def sessionsDelete (m : SessionMap) (k : String) : SessionMap :=
  m.filter (fun e => decide (e.1 ≠ k))

/-- The struct `Orchestrator` (lines 32-38), without the mutex. -/
structure Orchestrator where
  gpus : List GPU
  sessions : SessionMap
  basePort : Int
  timeout : Int
  deriving DecidableEq, Repr

/-- The clock readings taken by one call of `Claim`, in the order they are
taken: `time.Now()` at line 77, `time.Now().UnixNano()` inside `generatePIN`
(line 144, called at line 83), and `time.Now()` at line 84. -/
structure ClaimClock where
  sessionStart : Time
  pinNano : Int
  startedAt : Time
  deriving DecidableEq, Repr

/-! ## Operations -/

/-- The function `generatePIN` (lines 142-145) at the clock reading `nano`
(`time.Now().UnixNano()`, an `int64`).  Go's `%` truncates toward zero. -/
def generatePIN (nano : Int) : String :=
  toString (1000 + Int.tmod nano 9000)

/-- The slot built by the loop body of `NewOrchestrator` (lines 43-47) at index `i`. -/
def newGPU (basePort : Int) (i : Nat) : GPU :=
  { ID := (i : Int)
    Available := true
    UserID := ""
    SessionStart := zeroTime
    Port := wrap64 (basePort + wrap64 ((i : Int) * 10)) }

/-- The largest allocation the Go runtime accepts on a 64-bit platform
(`maxAlloc`, 2^48 bytes). -/
def maxAlloc : Int := 2 ^ 48

/-- The size in bytes of a `GPU` value on a 64-bit platform: `int` 8, `bool` 1
padded to 8, `string` 16, `time.Time` 24, `int` 8. -/
def sizeofGPU : Int := 64

/-- The function `NewOrchestrator` (lines 40-55).  `make([]GPU, gpuCount)` panics
(`makeslice: len out of range`) for a negative `gpuCount` and for a `gpuCount`
whose `gpuCount * sizeofGPU` bytes exceed `maxAlloc`, that is for
`gpuCount > 2^42`. -/
def NewOrchestrator (gpuCount basePort : Int) (timeout : Int) : Option Orchestrator :=
  if gpuCount < 0 ∨ gpuCount * sizeofGPU > maxAlloc then none
  else some
    { gpus := (List.range gpuCount.toNat).map (newGPU basePort)
      sessions := []
      basePort := basePort
      timeout := timeout }

/-- The method `Status` (lines 57-61): the contents, at the time of the call, of
the slice it returns. -/
def Status (o : Orchestrator) : List GPU := o.gpus

/-- The assignment to the fields of `o.gpus[i]` made by `Claim` (lines 75-77). -/
def markClaimed (userID : String) (t : Time) (g : GPU) : GPU :=
  { g with Available := false, UserID := userID, SessionStart := t }

/-- The scan of `Claim` (lines 73-92) over the slots: the first slot with
`Available` set is marked; the result is the new slot table and the marked slot,
or `none` when the loop ends without finding one. -/
def claimScan (userID : String) (t : Time) : List GPU → Option (List GPU × GPU)
  | [] => none
  | g :: gs =>
    if g.Available then some (markClaimed userID t g :: gs, markClaimed userID t g)
    else
      match claimScan userID t gs with
      | none => none
      | some (gs', c) => some (g :: gs', c)

/-- The method `Claim` (lines 63-95): the state after the call, the returned
`*Session` (`none` for `nil`) and the returned `error` (`none` for `nil`). -/
def Claim (o : Orchestrator) (userID : String) (clk : ClaimClock) :
    Orchestrator × Option Session × Option HTTPError :=
  match sessionsGet o.sessions userID with
  | some session => (o, some session, none)
  | none =>
    match claimScan userID clk.sessionStart o.gpus with
    | some (gpus', g) =>
      let session : Session :=
        { UserID := userID
          GPUID := g.ID
          Port := g.Port
          PIN := generatePIN clk.pinNano
          StartedAt := clk.startedAt }
      ({ o with gpus := gpus', sessions := sessionsSet o.sessions userID session },
        some session, none)
    | none => (o, none, some ErrNoAvailableGPU)

/-- Replace the element at position `n` of a slot table by its image under `f`. -/
def updateAt (f : GPU → GPU) : List GPU → Nat → List GPU
  | [], _ => []
  | g :: gs, 0 => f g :: gs
  | g :: gs, n + 1 => g :: updateAt f gs n

/-- The indexed update `o.gpus[i].field = ...` for a Go `int` index: `none`
(index out of range panic) unless `0 ≤ i < len(gpus)`. -/
def updateGPU (f : GPU → GPU) (gpus : List GPU) (i : Int) : Option (List GPU) :=
  if 0 ≤ i ∧ i < (gpus.length : Int) then some (updateAt f gpus i.toNat) else none

/-- The assignment to the fields of the slot made by `Release` (lines 106-108). -/
def markReleased (g : GPU) : GPU :=
  { g with Available := true, UserID := "", SessionStart := zeroTime }

/-- The assignment to the fields of the slot made by `CleanupExpired` (lines 122-123). -/
def markExpired (g : GPU) : GPU :=
  { g with Available := true, UserID := "" }

/-- The method `Release` (lines 97-113): the state after the call and the
returned `error` (`none` for `nil`); `none` when the call panics. -/
def Release (o : Orchestrator) (userID : String) : Option (Orchestrator × Option HTTPError) :=
  match sessionsGet o.sessions userID with
  | none => some (o, some ErrSessionNotFound)
  | some session =>
    match updateGPU markReleased o.gpus session.GPUID with
    | none => none
    | some gpus' =>
      some ({ o with gpus := gpus', sessions := sessionsDelete o.sessions userID }, none)

/-- The test of line 121, `now.Sub(session.StartedAt) > o.timeout`. -/
def expired (now : Time) (timeout : Int) (session : Session) : Bool :=
  decide (Time.Sub now session.StartedAt > timeout)

/-- One iteration of the loop of `CleanupExpired` (lines 120-127), at the map
entry `e`; `none` when the slot index panics. -/
def cleanupStep (now : Time) (o : Orchestrator) (e : String × Session) : Option Orchestrator :=
  if expired now o.timeout e.2 then
    match updateGPU markExpired o.gpus e.2.GPUID with
    | none => none
    | some gpus' => some { o with gpus := gpus', sessions := sessionsDelete o.sessions e.1 }
  else some o

/-- The loop of `CleanupExpired` visiting the entries in the order `order`.  An
iteration deletes only the entry it is visiting, so the loop visits every entry
the map had on entry exactly once. -/
def CleanupExpiredIn (order : List (String × Session)) (now : Time) (o : Orchestrator) :
    Option Orchestrator :=
  order.foldlM (cleanupStep now) o

/-- The method `CleanupExpired` (lines 115-128) with the clock reading `now` of
line 119, visiting the entries in the order of the association list. -/
def CleanupExpired (now : Time) (o : Orchestrator) : Option Orchestrator :=
  CleanupExpiredIn o.sessions now o

/-! ## Reachable states -/

/-- One call on the pool that returns: `Claim`, `Release` or `CleanupExpired`.
The sweep may visit the entries of the map in any order. -/
inductive Step : Orchestrator → Orchestrator → Prop
  | claim (o : Orchestrator) (userID : String) (clk : ClaimClock) :
      Step o (Claim o userID clk).1
  | release (o o' : Orchestrator) (userID : String) (err : Option HTTPError)
      (hr : Release o userID = some (o', err)) : Step o o'
  | cleanup (o o' : Orchestrator) (order : List (String × Session)) (now : Time)
      (hp : order.Perm o.sessions)
      (hc : CleanupExpiredIn order now o = some o') : Step o o'

/-- The states reached from `o₀` by a finite sequence of calls. -/
inductive ReachableFrom (o₀ : Orchestrator) : Orchestrator → Prop
  | refl : ReachableFrom o₀ o₀
  | step (o o' : Orchestrator) (h : ReachableFrom o₀ o) (hs : Step o o') :
      ReachableFrom o₀ o'

/-- The states reachable from a pool returned by `NewOrchestrator`. -/
def Reachable (o : Orchestrator) : Prop :=
  ∃ (gpuCount basePort timeout : Int) (o₀ : Orchestrator),
    NewOrchestrator gpuCount basePort timeout = some o₀ ∧ ReachableFrom o₀ o

/-- The slot `gpus[i]` for a Go `int` index, `none` when the index is out of range. -/
def slotAt (gpus : List GPU) (i : Int) : Option GPU :=
  if 0 ≤ i then gpus[i.toNat]? else none

/-- The number of slots with `Available == false`. -/
def unavailableCount (gpus : List GPU) : Nat :=
  gpus.countP (fun g => !g.Available)

/-- The keys of the session table. -/
def sessionKeys (m : SessionMap) : List String := m.map Prod.fst

/-- The consistency invariant of the pool: the keys of the session table are
pairwise distinct, every slot carries its index as `ID`, every lease is stored
under its own user and points at an unavailable slot held by that user, every
unavailable slot is the slot of a lease of its holder, and there are as many
unavailable slots as leases. -/
structure Inv (o : Orchestrator) : Prop where
  keys : (sessionKeys o.sessions).Nodup
  ids : ∀ (i : Nat) (g : GPU), o.gpus[i]? = some g → g.ID = (i : Int)
  lease : ∀ (u : String) (s : Session), (u, s) ∈ o.sessions →
    s.UserID = u ∧ ∃ g, slotAt o.gpus s.GPUID = some g ∧ g.Available = false ∧ g.UserID = u
  held : ∀ (i : Nat) (g : GPU), o.gpus[i]? = some g → g.Available = false →
    ∃ s, (g.UserID, s) ∈ o.sessions ∧ s.GPUID = (i : Int)
  count : unavailableCount o.gpus = o.sessions.length

/-- The state change shared by `Release` and by an expiring iteration of
`CleanupExpired`: the slot of the lease `s` is rewritten by `f` and the entry of
`u` is deleted. -/
def freeLease (f : GPU → GPU) (o : Orchestrator) (u : String) (s : Session) : Orchestrator :=
  { o with gpus := updateAt f o.gpus s.GPUID.toNat, sessions := sessionsDelete o.sessions u }

/-- The session built by `Claim` (lines 79-85) for the marked slot `g`. -/
def newSession (userID : String) (clk : ClaimClock) (g : GPU) : Session :=
  { UserID := userID
    GPUID := g.ID
    Port := g.Port
    PIN := generatePIN clk.pinNano
    StartedAt := clk.startedAt }

/-- The part of the slot table fixed by construction: the `ID` and `Port` of
every slot, in order. -/
def slotLayout (gpus : List GPU) : List (Int × Int) :=
  gpus.map (fun g => (g.ID, g.Port))

/-- The pool `NewOrchestrator(2, 47984, 4h)`, written out. -/
def pool2 : Orchestrator :=
  { gpus :=
      [ { ID := 0, Available := true, UserID := "", SessionStart := 0, Port := 47984 },
        { ID := 1, Available := true, UserID := "", SessionStart := 0, Port := 47994 } ]
    sessions := []
    basePort := 47984
    timeout := 14400000000000 }

/-- Sample clock readings for a call of `Claim`. -/
def clockA : ClaimClock := { sessionStart := 1000, pinNano := 1234567, startedAt := 1001 }

/-- The pool `pool2` after `Claim("alice")`. -/
def poolAlice : Orchestrator := (Claim pool2 "alice" clockA).1

/-- Sample clock readings for a later call of `Claim`. -/
def clockB : ClaimClock := { sessionStart := 5000, pinNano := 7654321, startedAt := 5002 }

/-- The lease returned by `Claim("alice")` on `pool2` with the readings `clockA`. -/
def aliceSession : Session :=
  { UserID := "alice", GPUID := 0, Port := 47984, PIN := "2567", StartedAt := 1001 }

/-- The pool `poolAlice` after `Claim("bob")`: both slots are taken. -/
def poolFull : Orchestrator := (Claim poolAlice "bob" clockB).1

/-- The pool `poolAlice` after `Release("alice")`. -/
def poolReleased : Orchestrator := freeLease markReleased poolAlice "alice" aliceSession

/-- Successive calls of `Claim`, one per element of `calls` (a user and the clock
readings of the call), in order: the final state and the list of the returned
values. -/
def claimAll : Orchestrator → List (String × ClaimClock) →
    Orchestrator × List (Option Session × Option HTTPError)
  | o, [] => (o, [])
  | o, (u, clk) :: rest =>
    ((claimAll (Claim o u clk).1 rest).1, (Claim o u clk).2 :: (claimAll (Claim o u clk).1 rest).2)

/-- Modelled on the spec's words "performs the same restoration as Release":
`Release(u)` called for each user of `users` in turn, whatever error it
returns; `none` when a call panics. -/
def releaseEach : List String → Orchestrator → Option Orchestrator
  | [], o => some o
  | u :: rest, o =>
    match Release o u with
    | none => none
    | some (o', _) => releaseEach rest o'

/-- The users whose lease has `now.Sub(StartedAt) > timeout`, in table order. -/
def expiredUsers (now : Time) (o : Orchestrator) : List String :=
  (o.sessions.filter (fun e => expired now o.timeout e.2)).map Prod.fst

/-- One call on the pool in which `Claim` is given a non-empty user identifier,
as the claim handler guarantees (line 173). -/
inductive GuardedStep : Orchestrator → Orchestrator → Prop
  | claim (o : Orchestrator) (userID : String) (clk : ClaimClock) (hu : userID ≠ "") :
      GuardedStep o (Claim o userID clk).1
  | release (o o' : Orchestrator) (userID : String) (err : Option HTTPError)
      (hr : Release o userID = some (o', err)) : GuardedStep o o'
  | cleanup (o o' : Orchestrator) (order : List (String × Session)) (now : Time)
      (hp : order.Perm o.sessions)
      (hc : CleanupExpiredIn order now o = some o') : GuardedStep o o'

/-- The states reached from `o₀` by calls in which every `Claim` has a non-empty
user identifier. -/
inductive GuardedReachableFrom (o₀ : Orchestrator) : Orchestrator → Prop
  | refl : GuardedReachableFrom o₀ o₀
  | step (o o' : Orchestrator) (h : GuardedReachableFrom o₀ o) (hs : GuardedStep o o') :
      GuardedReachableFrom o₀ o'

/-- The states reachable from a pool returned by `NewOrchestrator` by calls in
which every `Claim` has a non-empty user identifier. -/
def GuardedReachable (o : Orchestrator) : Prop :=
  ∃ (gpuCount basePort timeout : Int) (o₀ : Orchestrator),
    NewOrchestrator gpuCount basePort timeout = some o₀ ∧ GuardedReachableFrom o₀ o

/-- Holders are consistent with availability: an available slot has an empty
`UserID` and no key of the session table is empty. -/
structure HolderInv (o : Orchestrator) : Prop where
  free : ∀ g ∈ o.gpus, g.Available = true → g.UserID = ""
  named : ∀ e ∈ o.sessions, e.1 ≠ ""

/-- The pool `pool2` after `Claim("")`, a call the handlers never make. -/
def poolEmptyUser : Orchestrator := (Claim pool2 "" clockA).1

/-- The pool `NewOrchestrator(2, math.MaxInt64, 4h)`, written out: the port of slot
1 has wrapped around. -/
def poolMaxPort : Orchestrator :=
  { gpus :=
      [ { ID := 0, Available := true, UserID := "", SessionStart := 0,
          Port := 9223372036854775807 },
        { ID := 1, Available := true, UserID := "", SessionStart := 0,
          Port := -9223372036854775799 } ]
    sessions := []
    basePort := 9223372036854775807
    timeout := 14400000000000 }

/-- The pool `poolMaxPort` after `Claim("alice")` and `Claim("bob")`. -/
def poolMaxPortFull : Orchestrator :=
  (Claim (Claim poolMaxPort "alice" clockA).1 "bob" clockB).1

/-- The body written to the `http.ResponseWriter` by a handler: the message of
`http.Error`, the value given to `json.NewEncoder(w).Encode` (a `*Session`,
`none` for `nil`), or nothing. -/
inductive Body where
  | text (msg : String)
  | json (session : Option Session)
  | empty
  deriving DecidableEq, Repr

/-- The response of a handler: the status code and the body. -/
structure Response where
  status : Int
  body : Body
  deriving DecidableEq, Repr

/-- The library call `http.Error(w, msg, code)`. -/
def writeError (msg : String) (code : Int) : Response :=
  { status := code, body := Body.text msg }

/-- The handler of `POST /api/claim` (lines 171-187), on the value `userID` of
`r.URL.Query().Get("user_id")` (empty when the parameter is missing):
`http.StatusBadRequest` is 400 and a first write without `WriteHeader` answers
200.  Every error returned by `Claim` is a `*HTTPError`, so the type assertion
of line 179 succeeds and line 183 is not reached. -/
def claimHandler (o : Orchestrator) (userID : String) (clk : ClaimClock) :
    Orchestrator × Response :=
  if userID = "" then (o, writeError "user_id required" 400)
  else
    match Claim o userID clk with
    | (o', _, some httpErr) => (o', writeError httpErr.Message httpErr.Status)
    | (o', session, none) => (o', { status := 200, body := Body.json session })

/-- The handler of `POST /api/release` (lines 189-204); `none` when `Release`
panics.  Every error returned by `Release` is a `*HTTPError`, so line 200 is not
reached; `http.StatusOK` is 200. -/
def releaseHandler (o : Orchestrator) (userID : String) : Option (Orchestrator × Response) :=
  if userID = "" then some (o, writeError "user_id required" 400)
  else
    match Release o userID with
    | none => none
    | some (o', some httpErr) => some (o', writeError httpErr.Message httpErr.Status)
    | some (o', none) => some (o', { status := 200, body := Body.empty })

/-- A slot with its start timestamp set to the zero time. -/
def dropSessionStart (g : GPU) : GPU :=
  { g with SessionStart := zeroTime }

/-- What the holder of the slice returned by `Status` in the state `handedOut`
reads through it once the pool is in the state `later`.  `Status` returns
`o.gpus` itself (line 60), a slice that shares its backing array with the table
of the pool, and `Claim`, `Release` and `CleanupExpired` write the slots in
place (lines 75-77, 106-108, 122-123) without ever reallocating the table; so
the reader sees the slots of `later`, up to the length the slice had when it
was handed out. -/
def readStatus (handedOut later : Orchestrator) : List GPU :=
  later.gpus.take (Status handedOut).length

/-! ## The session table -/

theorem sessionsGet_eq_none_iff (m : SessionMap) (k : String) :
    sessionsGet m k = none ↔ k ∉ sessionKeys m := by
  induction m with
  | nil => simp [sessionsGet, sessionKeys]
  | cons e rest ih =>
    obtain ⟨k', v⟩ := e
    by_cases hk : k' = k
    · simp [sessionsGet, sessionKeys, hk]
    · have hk' : ¬ k = k' := fun h => hk h.symm
      simp only [sessionKeys] at ih
      simp [sessionsGet, sessionKeys, hk, hk', ih]

theorem mem_of_sessionsGet (m : SessionMap) (k : String) (v : Session)
    (h : sessionsGet m k = some v) : (k, v) ∈ m := by
  induction m with
  | nil => simp [sessionsGet] at h
  | cons e rest ih =>
    obtain ⟨k', v'⟩ := e
    by_cases hk : k' = k
    · simp [sessionsGet, hk] at h
      simp [hk, h]
    · simp [sessionsGet, hk] at h
      exact List.mem_cons_of_mem _ (ih h)

theorem sessionsGet_of_mem (m : SessionMap) (k : String) (v : Session)
    (hnd : (sessionKeys m).Nodup) (h : (k, v) ∈ m) : sessionsGet m k = some v := by
  induction m with
  | nil => simp at h
  | cons e rest ih =>
    obtain ⟨k', v'⟩ := e
    simp only [sessionKeys, List.map_cons, List.nodup_cons] at hnd
    rcases List.mem_cons.mp h with heq | hmem
    · cases heq
      simp [sessionsGet]
    · have hk : k' ≠ k := by
        intro hk
        apply hnd.1
        rw [hk]
        exact List.mem_map_of_mem Prod.fst hmem
      simp only [sessionsGet, hk, if_false]
      exact ih hnd.2 hmem

theorem sessionsSet_of_absent (m : SessionMap) (k : String) (v : Session)
    (h : sessionsGet m k = none) : sessionsSet m k v = m ++ [(k, v)] := by
  induction m with
  | nil => simp [sessionsSet]
  | cons e rest ih =>
    obtain ⟨k', v'⟩ := e
    by_cases hk : k' = k
    · simp [sessionsGet, hk] at h
    · simp only [sessionsGet, hk, if_false] at h
      simp [sessionsSet, hk, ih h]

theorem sessionsGet_append_of_some (m m' : SessionMap) (k : String) (v : Session)
    (h : sessionsGet m k = some v) : sessionsGet (m ++ m') k = some v := by
  induction m with
  | nil => simp [sessionsGet] at h
  | cons e rest ih =>
    obtain ⟨k₀, v₀⟩ := e
    by_cases hk : k₀ = k
    · simp only [sessionsGet, hk, if_true] at h
      simp [sessionsGet, hk, h]
    · simp only [sessionsGet, hk, if_false] at h
      simp [sessionsGet, hk, ih h]

theorem sessionsGet_append_of_none (m m' : SessionMap) (k : String)
    (h : sessionsGet m k = none) : sessionsGet (m ++ m') k = sessionsGet m' k := by
  induction m with
  | nil => rfl
  | cons e rest ih =>
    obtain ⟨k₀, v₀⟩ := e
    by_cases hk : k₀ = k
    · simp [sessionsGet, hk] at h
    · simp only [sessionsGet, hk, if_false] at h
      simp [sessionsGet, hk, ih h]

theorem sessionsGet_append_entry (m : SessionMap) (u : String) (s : Session) (k : String)
    (h : sessionsGet m u = none) :
    sessionsGet (m ++ [(u, s)]) k = if k = u then some s else sessionsGet m k := by
  by_cases hk : k = u
  · subst hk
    rw [sessionsGet_append_of_none m _ k h, if_pos rfl]
    simp [sessionsGet]
  · rw [if_neg hk]
    have hk' : ¬ u = k := fun h => hk h.symm
    cases hg : sessionsGet m k with
    | some v => exact sessionsGet_append_of_some m _ k v hg
    | none =>
      rw [sessionsGet_append_of_none m _ k hg]
      simp [sessionsGet, hk']

theorem sessionsDelete_nil (k : String) : sessionsDelete [] k = [] := rfl

theorem sessionsDelete_cons (k₀ : String) (v₀ : Session) (rest : SessionMap) (k : String) :
    sessionsDelete ((k₀, v₀) :: rest) k =
      if k₀ = k then sessionsDelete rest k else (k₀, v₀) :: sessionsDelete rest k := by
  by_cases h : k₀ = k <;> simp [sessionsDelete, List.filter_cons, h]

theorem mem_sessionsDelete (m : SessionMap) (k : String) (e : String × Session) :
    e ∈ sessionsDelete m k ↔ e ∈ m ∧ e.1 ≠ k := by
  simp [sessionsDelete, List.mem_filter]

theorem sessionsGet_sessionsDelete (m : SessionMap) (k k' : String) :
    sessionsGet (sessionsDelete m k) k' = if k' = k then none else sessionsGet m k' := by
  induction m with
  | nil => simp [sessionsDelete_nil, sessionsGet]
  | cons e rest ih =>
    obtain ⟨k₀, v₀⟩ := e
    rw [sessionsDelete_cons]
    by_cases h0 : k₀ = k
    · subst h0
      by_cases h1 : k' = k₀
      · subst h1
        simpa using ih
      · have h2 : ¬ k₀ = k' := fun h => h1 h.symm
        simp [ih, h1, sessionsGet, h2]
    · by_cases h1 : k₀ = k'
      · subst h1
        simp [h0, sessionsGet]
      · simp [h0, sessionsGet, h1, ih]

theorem sessionsDelete_of_absent (m : SessionMap) (k : String)
    (h : k ∉ sessionKeys m) : sessionsDelete m k = m := by
  induction m with
  | nil => rfl
  | cons e rest ih =>
    obtain ⟨k₀, v₀⟩ := e
    simp only [sessionKeys, List.map_cons, List.mem_cons, not_or] at h
    have h0 : ¬ k₀ = k := fun hk => h.1 hk.symm
    rw [sessionsDelete_cons, if_neg h0, ih h.2]

theorem sessionsDelete_append_self (m : SessionMap) (k : String) (v : Session)
    (h : sessionsGet m k = none) : sessionsDelete (m ++ [(k, v)]) k = m := by
  have h1 := sessionsDelete_of_absent m k ((sessionsGet_eq_none_iff m k).mp h)
  have h2 : sessionsDelete [(k, v)] k = [] := by
    rw [sessionsDelete_cons, if_pos rfl, sessionsDelete_nil]
  unfold sessionsDelete at h1 h2 ⊢
  rw [List.filter_append, h1, h2, List.append_nil]

theorem sessionKeys_sessionsDelete_nodup (m : SessionMap) (k : String)
    (h : (sessionKeys m).Nodup) : (sessionKeys (sessionsDelete m k)).Nodup := by
  have hsub : List.Sublist (sessionsDelete m k) m := List.filter_sublist m
  exact List.Nodup.sublist (List.Sublist.map Prod.fst hsub) h

theorem sessionsDelete_length (m : SessionMap) (k : String) (v : Session)
    (hnd : (sessionKeys m).Nodup) (h : (k, v) ∈ m) :
    (sessionsDelete m k).length + 1 = m.length := by
  induction m with
  | nil => simp at h
  | cons e rest ih =>
    obtain ⟨k', v'⟩ := e
    simp only [sessionKeys, List.map_cons, List.nodup_cons] at hnd
    rw [sessionsDelete_cons]
    by_cases hk : k' = k
    · subst hk
      rw [if_pos rfl, sessionsDelete_of_absent rest k' hnd.1]
      rfl
    · have hmem : (k, v) ∈ rest := by
        rcases List.mem_cons.mp h with heq | hmem
        · cases heq
          exact absurd rfl hk
        · exact hmem
      have := ih hnd.2 hmem
      rw [if_neg hk]
      simp only [List.length_cons]
      omega

/-! ## The slot table -/

theorem updateAt_length (f : GPU → GPU) (l : List GPU) (n : Nat) :
    (updateAt f l n).length = l.length := by
  induction l generalizing n with
  | nil => rfl
  | cons g gs ih =>
    cases n with
    | zero => rfl
    | succ n => simp [updateAt, ih]

theorem updateAt_getElem? (f : GPU → GPU) (l : List GPU) (n i : Nat) :
    (updateAt f l n)[i]? = if i = n then (l[i]?).map f else l[i]? := by
  induction l generalizing n i with
  | nil => simp [updateAt]
  | cons g gs ih =>
    cases n with
    | zero =>
      cases i with
      | zero => simp [updateAt]
      | succ i => simp [updateAt]
    | succ n =>
      cases i with
      | zero => simp [updateAt]
      | succ i => simp [updateAt, ih]

theorem unavailableCount_cons (g : GPU) (gs : List GPU) :
    unavailableCount (g :: gs) = unavailableCount gs + (if g.Available then 0 else 1) := by
  cases h : g.Available <;> simp [unavailableCount, List.countP_cons, h]

theorem unavailableCount_le_length (l : List GPU) : unavailableCount l ≤ l.length :=
  List.countP_le_length _

theorem unavailableCount_updateAt_free (f : GPU → GPU) (l : List GPU) (n : Nat) (g : GPU)
    (hg : l[n]? = some g) (hu : g.Available = false) (hf : (f g).Available = true) :
    unavailableCount (updateAt f l n) + 1 = unavailableCount l := by
  induction l generalizing n with
  | nil => simp at hg
  | cons g₀ gs ih =>
    cases n with
    | zero =>
      simp only [List.getElem?_cons_zero, Option.some.injEq] at hg
      subst hg
      simp [updateAt, unavailableCount_cons, hu, hf]
    | succ n =>
      simp only [List.getElem?_cons_succ] at hg
      have := ih n hg
      simp only [updateAt, unavailableCount_cons]
      omega

theorem unavailableCount_updateAt_claim (f : GPU → GPU) (l : List GPU) (n : Nat) (g : GPU)
    (hg : l[n]? = some g) (hu : g.Available = true) (hf : (f g).Available = false) :
    unavailableCount (updateAt f l n) = unavailableCount l + 1 := by
  induction l generalizing n with
  | nil => simp at hg
  | cons g₀ gs ih =>
    cases n with
    | zero =>
      simp only [List.getElem?_cons_zero, Option.some.injEq] at hg
      subst hg
      simp [updateAt, unavailableCount_cons, hu, hf]
    | succ n =>
      simp only [List.getElem?_cons_succ] at hg
      have := ih n hg
      simp only [updateAt, unavailableCount_cons]
      omega

theorem slotAt_natCast (l : List GPU) (i : Nat) : slotAt l (i : Int) = l[i]? := by
  simp [slotAt]

theorem slotAt_eq_some (l : List GPU) (i : Int) (g : GPU) (h : slotAt l i = some g) :
    0 ≤ i ∧ i < (l.length : Int) ∧ l[i.toNat]? = some g := by
  unfold slotAt at h
  by_cases h0 : 0 ≤ i
  · rw [if_pos h0] at h
    have hlt : i.toNat < l.length := by
      by_contra hc
      rw [List.getElem?_eq_none (Nat.le_of_not_lt hc)] at h
      cases h
    refine ⟨h0, ?_, h⟩
    omega
  · rw [if_neg h0] at h
    cases h

theorem updateGPU_eq_some (f : GPU → GPU) (l : List GPU) (i : Int) (g : GPU)
    (h : slotAt l i = some g) : updateGPU f l i = some (updateAt f l i.toNat) := by
  obtain ⟨h0, h1, _⟩ := slotAt_eq_some l i g h
  simp [updateGPU, h0, h1]

/-- What the scan of `Claim` does: it fails exactly when no slot is available, and
otherwise marks the slot of least index among the available ones. -/
theorem claimScan_spec (u : String) (t : Time) (l : List GPU) :
    (claimScan u t l = none ∧ ∀ g ∈ l, g.Available = false) ∨
    ∃ (i : Nat) (g : GPU), l[i]? = some g ∧ g.Available = true ∧
      (∀ (j : Nat) (g' : GPU), j < i → l[j]? = some g' → g'.Available = false) ∧
      claimScan u t l = some (updateAt (markClaimed u t) l i, markClaimed u t g) := by
  induction l with
  | nil => left; simp [claimScan]
  | cons g₀ gs ih =>
    by_cases h0 : g₀.Available = true
    · right
      refine ⟨0, g₀, by simp, h0, ?_, ?_⟩
      · intro j g' hj
        omega
      · simp [claimScan, h0, updateAt]
    · have h0' : g₀.Available = false := by simpa using h0
      rcases ih with ⟨hn, hall⟩ | ⟨i, g, hg, ha, hlt, hs⟩
      · left
        refine ⟨by simp [claimScan, h0', hn], ?_⟩
        intro g hg
        rcases List.mem_cons.mp hg with rfl | hmem
        · exact h0'
        · exact hall g hmem
      · right
        refine ⟨i + 1, g, by simpa using hg, ha, ?_, ?_⟩
        · intro j g' hj hj'
          cases j with
          | zero =>
            simp only [List.getElem?_cons_zero, Option.some.injEq] at hj'
            rw [← hj']
            exact h0'
          | succ j =>
            simp only [List.getElem?_cons_succ] at hj'
            exact hlt j g' (by omega) hj'
        · simp [claimScan, h0', hs, updateAt]

/-! ## The invariant -/

theorem newOrchestrator_eq_some (gpuCount basePort timeout : Int) (o : Orchestrator)
    (h : NewOrchestrator gpuCount basePort timeout = some o) :
    0 ≤ gpuCount ∧ o.gpus = (List.range gpuCount.toNat).map (newGPU basePort) ∧
      o.sessions = [] ∧ o.basePort = basePort ∧ o.timeout = timeout := by
  unfold NewOrchestrator at h
  by_cases hc : gpuCount < 0 ∨ gpuCount * sizeofGPU > maxAlloc
  · rw [if_pos hc] at h
    cases h
  · rw [if_neg hc] at h
    cases h
    exact ⟨by omega, rfl, rfl, rfl, rfl⟩

theorem newOrchestrator_eq_some_bound (gpuCount basePort timeout : Int) (o : Orchestrator)
    (h : NewOrchestrator gpuCount basePort timeout = some o) :
    gpuCount * sizeofGPU ≤ maxAlloc := by
  unfold NewOrchestrator at h
  by_cases hc : gpuCount < 0 ∨ gpuCount * sizeofGPU > maxAlloc
  · rw [if_pos hc] at h
    cases h
  · omega

theorem newOrchestrator_of_fits (count basePort timeout : Int) (hc : 0 ≤ count)
    (hm : count * sizeofGPU ≤ maxAlloc) :
    NewOrchestrator count basePort timeout = some
      { gpus := (List.range count.toNat).map (newGPU basePort)
        sessions := []
        basePort := basePort
        timeout := timeout } := by
  unfold NewOrchestrator
  rw [if_neg (by omega)]

theorem newOrchestrator_of_unfit (count basePort timeout : Int)
    (h : count < 0 ∨ count * sizeofGPU > maxAlloc) :
    NewOrchestrator count basePort timeout = none := by
  unfold NewOrchestrator
  rw [if_pos h]

theorem newOrchestrator_getElem? (n : Nat) (basePort : Int) (i : Nat) (g : GPU)
    (h : ((List.range n).map (newGPU basePort))[i]? = some g) : i < n ∧ g = newGPU basePort i := by
  rw [List.getElem?_map] at h
  by_cases hi : i < n
  · rw [List.getElem?_range hi] at h
    simp only [Option.map_some', Option.some.injEq] at h
    exact ⟨hi, h.symm⟩
  · rw [List.getElem?_eq_none (by simpa using hi)] at h
    cases h

theorem inv_new (gpuCount basePort timeout : Int) (o : Orchestrator)
    (h : NewOrchestrator gpuCount basePort timeout = some o) : Inv o := by
  obtain ⟨_, hg, hs, _, _⟩ := newOrchestrator_eq_some gpuCount basePort timeout o h
  have hav : ∀ (i : Nat) (g : GPU), o.gpus[i]? = some g → g.ID = (i : Int) ∧ g.Available = true := by
    intro i g hi
    rw [hg] at hi
    obtain ⟨_, rfl⟩ := newOrchestrator_getElem? _ _ _ _ hi
    exact ⟨rfl, rfl⟩
  refine ⟨by simp [hs, sessionKeys], fun i g hi => (hav i g hi).1, ?_, ?_, ?_⟩
  · intro u s hm
    rw [hs] at hm
    cases hm
  · intro i g hi hu
    rw [(hav i g hi).2] at hu
    cases hu
  · rw [hs, hg]
    simp [unavailableCount, newGPU, List.countP_eq_zero]

theorem claim_of_lease (o : Orchestrator) (u : String) (clk : ClaimClock) (s : Session)
    (h : sessionsGet o.sessions u = some s) : Claim o u clk = (o, some s, none) := by
  simp [Claim, h]

theorem claim_of_full (o : Orchestrator) (u : String) (clk : ClaimClock)
    (h : sessionsGet o.sessions u = none) (hf : ∀ g ∈ o.gpus, g.Available = false) :
    Claim o u clk = (o, none, some ErrNoAvailableGPU) := by
  rcases claimScan_spec u clk.sessionStart o.gpus with ⟨hn, _⟩ | ⟨i, g, hg, ha, _, _⟩
  · simp [Claim, h, hn]
  · have := hf g (List.getElem?_mem hg)
    rw [ha] at this
    cases this

theorem claim_of_free (o : Orchestrator) (u : String) (clk : ClaimClock)
    (h : sessionsGet o.sessions u = none) (i : Nat) (g : GPU)
    (hg : o.gpus[i]? = some g) (ha : g.Available = true)
    (hlt : ∀ (j : Nat) (g' : GPU), j < i → o.gpus[j]? = some g' → g'.Available = false) :
    Claim o u clk =
      ({ o with
          gpus := updateAt (markClaimed u clk.sessionStart) o.gpus i
          sessions := o.sessions ++ [(u, newSession u clk (markClaimed u clk.sessionStart g))] },
        some (newSession u clk (markClaimed u clk.sessionStart g)), none) := by
  rcases claimScan_spec u clk.sessionStart o.gpus with ⟨_, hall⟩ | ⟨i', g', hg', ha', hlt', hs⟩
  · have := hall g (List.getElem?_mem hg)
    rw [ha] at this
    cases this
  · have hii : i' = i := by
      rcases Nat.lt_trichotomy i' i with hlt1 | heq | hgt
      · have := hlt i' g' hlt1 hg'
        rw [ha'] at this
        cases this
      · exact heq
      · have := hlt' i g hgt hg
        rw [ha] at this
        cases this
    subst hii
    rw [hg] at hg'
    cases hg'
    simp [Claim, h, hs, newSession, sessionsSet_of_absent _ _ _ h]

theorem inv_claimed (o : Orchestrator) (u : String) (clk : ClaimClock) (i : Nat) (g : GPU)
    (hinv : Inv o) (h : sessionsGet o.sessions u = none)
    (hg : o.gpus[i]? = some g) (ha : g.Available = true) :
    Inv { o with
      gpus := updateAt (markClaimed u clk.sessionStart) o.gpus i
      sessions := o.sessions ++ [(u, newSession u clk (markClaimed u clk.sessionStart g))] } := by
  have hgid : g.ID = (i : Int) := hinv.ids i g hg
  have hnew : slotAt (updateAt (markClaimed u clk.sessionStart) o.gpus i) (i : Int) =
      some (markClaimed u clk.sessionStart g) := by
    rw [slotAt_natCast, updateAt_getElem?, if_pos rfl, hg]
    rfl
  refine ⟨?_, ?_, ?_, ?_, ?_⟩
  · have hu : u ∉ sessionKeys o.sessions := (sessionsGet_eq_none_iff _ _).mp h
    have hk := hinv.keys
    simp only [sessionKeys] at hu hk ⊢
    rw [List.map_append, List.nodup_append]
    refine ⟨hk, by simp, ?_⟩
    intro a ha1 ha2
    simp only [List.map_cons, List.map_nil, List.mem_singleton] at ha2
    subst ha2
    exact hu ha1
  · intro j g' hj
    simp only [updateAt_getElem?] at hj
    by_cases hji : j = i
    · subst hji
      rw [if_pos rfl, hg] at hj
      simp only [Option.map_some', Option.some.injEq] at hj
      rw [← hj]
      exact hgid
    · rw [if_neg hji] at hj
      exact hinv.ids j g' hj
  · intro v s hm
    simp only [List.mem_append, List.mem_singleton] at hm
    rcases hm with hold | hnew'
    · obtain ⟨hsu, g', hs', hav, hho⟩ := hinv.lease v s hold
      refine ⟨hsu, g', ?_, hav, hho⟩
      obtain ⟨h0, _, hget⟩ := slotAt_eq_some _ _ _ hs'
      have hne : s.GPUID.toNat ≠ i := by
        intro heq
        rw [heq, hg] at hget
        cases hget
        rw [ha] at hav
        cases hav
      simp only [slotAt, h0, if_true, updateAt_getElem?, if_neg hne]
      exact hget
    · cases hnew'
      refine ⟨rfl, markClaimed u clk.sessionStart g, ?_, rfl, rfl⟩
      show slotAt _ g.ID = _
      rw [hgid]
      exact hnew
  · intro j g' hj hav
    simp only [updateAt_getElem?] at hj
    by_cases hji : j = i
    · subst hji
      rw [if_pos rfl, hg] at hj
      simp only [Option.map_some', Option.some.injEq] at hj
      subst hj
      exact ⟨newSession u clk (markClaimed u clk.sessionStart g),
        by simp [markClaimed], hgid⟩
    · rw [if_neg hji] at hj
      obtain ⟨s, hm, hs⟩ := hinv.held j g' hj hav
      exact ⟨s, List.mem_append_left _ hm, hs⟩
  · have hc := hinv.count
    have := unavailableCount_updateAt_claim (markClaimed u clk.sessionStart) o.gpus i g hg ha rfl
    simp only [List.length_append, List.length_singleton]
    omega

theorem inv_claim (o : Orchestrator) (u : String) (clk : ClaimClock) (hinv : Inv o) :
    Inv (Claim o u clk).1 := by
  cases hs : sessionsGet o.sessions u with
  | some s => rw [claim_of_lease o u clk s hs]; exact hinv
  | none =>
    rcases claimScan_spec u clk.sessionStart o.gpus with ⟨_, hall⟩ | ⟨i, g, hg, ha, hlt, _⟩
    · rw [claim_of_full o u clk hs hall]; exact hinv
    · rw [claim_of_free o u clk hs i g hg ha hlt]
      exact inv_claimed o u clk i g hinv hs hg ha

theorem inv_freeLease (f : GPU → GPU) (o : Orchestrator) (u : String) (s : Session)
    (hf : ∀ g, (f g).Available = true ∧ (f g).ID = g.ID)
    (hinv : Inv o) (hm : (u, s) ∈ o.sessions) : Inv (freeLease f o u s) := by
  obtain ⟨_, g, hslot, hgav, hgu⟩ := hinv.lease u s hm
  obtain ⟨h0, h1, hget⟩ := slotAt_eq_some _ _ _ hslot
  refine ⟨sessionKeys_sessionsDelete_nodup _ _ hinv.keys, ?_, ?_, ?_, ?_⟩
  · intro j g' hj
    simp only [freeLease, updateAt_getElem?] at hj
    by_cases hji : j = s.GPUID.toNat
    · subst hji
      rw [if_pos rfl, hget] at hj
      simp only [Option.map_some', Option.some.injEq] at hj
      rw [← hj, (hf g).2]
      exact hinv.ids _ g hget
    · rw [if_neg hji] at hj
      exact hinv.ids j g' hj
  · intro v s' hm'
    simp only [freeLease] at hm' ⊢
    obtain ⟨hold, hne⟩ := (mem_sessionsDelete _ _ _).mp hm'
    obtain ⟨hsu, g', hs', hav, hho⟩ := hinv.lease v s' hold
    refine ⟨hsu, g', ?_, hav, hho⟩
    obtain ⟨h0', _, hget'⟩ := slotAt_eq_some _ _ _ hs'
    have hne' : s'.GPUID.toNat ≠ s.GPUID.toNat := by
      intro heq
      rw [heq, hget] at hget'
      cases hget'
      exact hne (hho.symm.trans hgu)
    simp only [slotAt, h0', if_true, updateAt_getElem?, if_neg hne']
    exact hget'
  · intro j g' hj hav
    simp only [freeLease, updateAt_getElem?] at hj ⊢
    by_cases hji : j = s.GPUID.toNat
    · subst hji
      rw [if_pos rfl, hget] at hj
      simp only [Option.map_some', Option.some.injEq] at hj
      rw [← hj, (hf g).1] at hav
      cases hav
    · rw [if_neg hji] at hj
      obtain ⟨s'', hm'', hs''⟩ := hinv.held j g' hj hav
      refine ⟨s'', (mem_sessionsDelete _ _ _).mpr ⟨hm'', ?_⟩, hs''⟩
      intro heq
      simp only at heq
      rw [heq] at hm''
      have e1 := sessionsGet_of_mem _ _ _ hinv.keys hm''
      have e2 := sessionsGet_of_mem _ _ _ hinv.keys hm
      rw [e1] at e2
      cases e2
      apply hji
      omega
  · have hc := hinv.count
    have h2 := unavailableCount_updateAt_free f o.gpus s.GPUID.toNat g hget hgav (hf g).1
    have h3 := sessionsDelete_length o.sessions u s hinv.keys hm
    simp only [freeLease]
    omega

theorem release_of_absent (o : Orchestrator) (u : String)
    (h : sessionsGet o.sessions u = none) : Release o u = some (o, some ErrSessionNotFound) := by
  simp [Release, h]

theorem release_of_slot (o : Orchestrator) (u : String) (s : Session) (g : GPU)
    (h : sessionsGet o.sessions u = some s) (hg : slotAt o.gpus s.GPUID = some g) :
    Release o u = some (freeLease markReleased o u s, none) := by
  simp [Release, h, updateGPU_eq_some _ _ _ _ hg, freeLease]

theorem release_of_lease (o : Orchestrator) (u : String) (s : Session) (hinv : Inv o)
    (h : sessionsGet o.sessions u = some s) :
    Release o u = some (freeLease markReleased o u s, none) := by
  obtain ⟨_, g, hg, _, _⟩ := hinv.lease u s (mem_of_sessionsGet _ _ _ h)
  exact release_of_slot o u s g h hg

theorem inv_release (o o' : Orchestrator) (u : String) (err : Option HTTPError) (hinv : Inv o)
    (h : Release o u = some (o', err)) : Inv o' := by
  cases hs : sessionsGet o.sessions u with
  | none =>
    rw [release_of_absent o u hs] at h
    cases h
    exact hinv
  | some s =>
    rw [release_of_lease o u s hinv hs] at h
    cases h
    exact inv_freeLease markReleased o u s (fun g => ⟨rfl, rfl⟩) hinv (mem_of_sessionsGet _ _ _ hs)

theorem cleanupStep_of_fresh (now : Time) (o : Orchestrator) (e : String × Session)
    (h : expired now o.timeout e.2 = false) : cleanupStep now o e = some o := by
  simp [cleanupStep, h]

theorem cleanupStep_of_expired (now : Time) (o : Orchestrator) (e : String × Session) (g : GPU)
    (h : expired now o.timeout e.2 = true) (hg : slotAt o.gpus e.2.GPUID = some g) :
    cleanupStep now o e = some (freeLease markExpired o e.1 e.2) := by
  simp [cleanupStep, h, updateGPU_eq_some _ _ _ _ hg, freeLease]

theorem cleanupExpiredIn_nil (now : Time) (o : Orchestrator) :
    CleanupExpiredIn [] now o = some o := rfl

theorem cleanupExpiredIn_cons (e : String × Session) (rest : List (String × Session))
    (now : Time) (o : Orchestrator) :
    CleanupExpiredIn (e :: rest) now o =
      (cleanupStep now o e).bind (CleanupExpiredIn rest now) := by
  simp [CleanupExpiredIn, List.foldlM_cons]

theorem markExpired_idem (g : GPU) : markExpired (markExpired g) = markExpired g := rfl

theorem entry_eq_of_key_eq (m : SessionMap) (hnd : (sessionKeys m).Nodup)
    (x e : String × Session) (hx : x ∈ m) (he : e ∈ m) (hk : x.1 = e.1) : x = e := by
  obtain ⟨xk, xv⟩ := x
  obtain ⟨ek, ev⟩ := e
  simp only at hk
  subst hk
  have e1 := sessionsGet_of_mem _ _ _ hnd hx
  have e2 := sessionsGet_of_mem _ _ _ hnd he
  rw [e1] at e2
  cases e2
  rfl

/-- The sweep visiting the entries `order` (entries of the table, with pairwise
distinct keys) returns; it removes the visited entries that are expired and
rewrites their slots, and nothing else. -/
theorem cleanupExpiredIn_spec (now : Time) (order : List (String × Session)) :
    ∀ (o : Orchestrator), Inv o → (∀ e ∈ order, e ∈ o.sessions) → (sessionKeys order).Nodup →
    ∃ o', CleanupExpiredIn order now o = some o' ∧ Inv o' ∧
      o'.timeout = o.timeout ∧ o'.basePort = o.basePort ∧
      o'.sessions =
        o.sessions.filter (fun e => !(decide (e ∈ order) && expired now o.timeout e.2)) ∧
      ∀ i : Nat,
        ((∃ e ∈ order, expired now o.timeout e.2 = true ∧ e.2.GPUID = (i : Int)) →
          o'.gpus[i]? = (o.gpus[i]?).map markExpired) ∧
        ((¬ ∃ e ∈ order, expired now o.timeout e.2 = true ∧ e.2.GPUID = (i : Int)) →
          o'.gpus[i]? = o.gpus[i]?) := by
  induction order with
  | nil =>
    intro o hinv _ _
    exact ⟨o, rfl, hinv, rfl, rfl, by simp, by simp⟩
  | cons e rest ih =>
    intro o hinv hsub hnd
    have hem : e ∈ o.sessions := hsub e (List.mem_cons_self _ _)
    simp only [sessionKeys, List.map_cons, List.nodup_cons] at hnd
    cases hex : expired now o.timeout e.2 with
    | false =>
      obtain ⟨o', hc, hinv', ht, hb, hs, hg⟩ :=
        ih o hinv (fun x hx => hsub x (List.mem_cons_of_mem _ hx)) hnd.2
      refine ⟨o', ?_, hinv', ht, hb, ?_, ?_⟩
      · rw [cleanupExpiredIn_cons, cleanupStep_of_fresh now o e hex]
        exact hc
      · rw [hs]
        apply List.filter_congr
        intro x _
        by_cases hxe : x = e
        · subst hxe
          simp [hex]
        · simp [hxe]
      · intro i
        have hiff : (∃ x ∈ e :: rest, expired now o.timeout x.2 = true ∧ x.2.GPUID = (i : Int)) ↔
            (∃ x ∈ rest, expired now o.timeout x.2 = true ∧ x.2.GPUID = (i : Int)) := by
          constructor
          · rintro ⟨x, hx, hxe, hxi⟩
            rcases List.mem_cons.mp hx with rfl | hx'
            · rw [hex] at hxe
              cases hxe
            · exact ⟨x, hx', hxe, hxi⟩
          · rintro ⟨x, hx, hxe, hxi⟩
            exact ⟨x, List.mem_cons_of_mem _ hx, hxe, hxi⟩
        rw [hiff]
        exact hg i
    | true =>
      obtain ⟨_, g, hslot, _, _⟩ := hinv.lease e.1 e.2 hem
      obtain ⟨h0, _, hget⟩ := slotAt_eq_some _ _ _ hslot
      have hinv1 : Inv (freeLease markExpired o e.1 e.2) :=
        inv_freeLease markExpired o e.1 e.2 (fun g => ⟨rfl, rfl⟩) hinv hem
      have hsub1 : ∀ x ∈ rest, x ∈ (freeLease markExpired o e.1 e.2).sessions := by
        intro x hx
        refine (mem_sessionsDelete _ _ _).mpr ⟨hsub x (List.mem_cons_of_mem _ hx), ?_⟩
        intro hk
        apply hnd.1
        rw [← hk]
        exact List.mem_map_of_mem Prod.fst hx
      obtain ⟨o', hc, hinv', ht, hb, hs, hg⟩ := ih _ hinv1 hsub1 hnd.2
      have ht1 : (freeLease markExpired o e.1 e.2).timeout = o.timeout := rfl
      rw [ht1] at hs hg
      refine ⟨o', ?_, hinv', ht, hb, ?_, ?_⟩
      · rw [cleanupExpiredIn_cons, cleanupStep_of_expired now o e g hex hslot]
        exact hc
      · rw [hs]
        show List.filter _ (List.filter _ o.sessions) = _
        rw [List.filter_filter]
        apply List.filter_congr
        intro x hx
        by_cases hxe : x = e
        · subst hxe
          simp [hex]
        · have hk : x.1 ≠ e.1 := fun hk => hxe (entry_eq_of_key_eq _ hinv.keys x e hx hem hk)
          simp [hxe, hk]
      · intro i
        have h1 : (freeLease markExpired o e.1 e.2).gpus[i]? =
            if i = e.2.GPUID.toNat then (o.gpus[i]?).map markExpired else o.gpus[i]? := by
          simp only [freeLease, updateAt_getElem?]
        obtain ⟨hgA, hgB⟩ := hg i
        rw [h1] at hgA hgB
        constructor
        · rintro ⟨x, hx, hxe, hxi⟩
          by_cases hr : ∃ x ∈ rest, expired now o.timeout x.2 = true ∧ x.2.GPUID = (i : Int)
          · rw [hgA hr]
            by_cases hi : i = e.2.GPUID.toNat
            · rw [if_pos hi]
              cases o.gpus[i]? <;> rfl
            · rw [if_neg hi]
          · have hxe' : x = e := by
              rcases List.mem_cons.mp hx with rfl | hx'
              · rfl
              · exact absurd ⟨x, hx', hxe, hxi⟩ hr
            subst hxe'
            have hi : i = x.2.GPUID.toNat := by omega
            rw [hgB hr, if_pos hi]
        · intro hno
          have hr : ¬ ∃ x ∈ rest, expired now o.timeout x.2 = true ∧ x.2.GPUID = (i : Int) := by
            rintro ⟨x, hx, hxe, hxi⟩
            exact hno ⟨x, List.mem_cons_of_mem _ hx, hxe, hxi⟩
          have hi : ¬ i = e.2.GPUID.toNat := by
            intro hi
            apply hno
            refine ⟨e, List.mem_cons_self _ _, hex, ?_⟩
            omega
          rw [hgB hr, if_neg hi]

/-- The sweep in a state satisfying the invariant, for any visiting order of the
whole table: it returns, and its result does not depend on the order. -/
theorem cleanupExpiredIn_perm (now : Time) (order : List (String × Session)) (o : Orchestrator)
    (hinv : Inv o) (hp : order.Perm o.sessions) :
    ∃ o', CleanupExpiredIn order now o = some o' ∧ Inv o' ∧
      o'.timeout = o.timeout ∧ o'.basePort = o.basePort ∧
      o'.sessions = o.sessions.filter (fun e => !expired now o.timeout e.2) ∧
      ∀ i : Nat,
        ((∃ e ∈ o.sessions, expired now o.timeout e.2 = true ∧ e.2.GPUID = (i : Int)) →
          o'.gpus[i]? = (o.gpus[i]?).map markExpired) ∧
        ((¬ ∃ e ∈ o.sessions, expired now o.timeout e.2 = true ∧ e.2.GPUID = (i : Int)) →
          o'.gpus[i]? = o.gpus[i]?) := by
  have hnd : (sessionKeys order).Nodup :=
    (List.Perm.nodup_iff (List.Perm.map Prod.fst hp)).mpr hinv.keys
  obtain ⟨o', hc, hinv', ht, hb, hs, hg⟩ :=
    cleanupExpiredIn_spec now order o hinv (fun e he => (List.Perm.mem_iff hp).mp he) hnd
  refine ⟨o', hc, hinv', ht, hb, ?_, ?_⟩
  · rw [hs]
    apply List.filter_congr
    intro x hx
    have : x ∈ order := (List.Perm.mem_iff hp).mpr hx
    simp [this]
  · intro i
    have hiff : (∃ e ∈ order, expired now o.timeout e.2 = true ∧ e.2.GPUID = (i : Int)) ↔
        (∃ e ∈ o.sessions, expired now o.timeout e.2 = true ∧ e.2.GPUID = (i : Int)) := by
      constructor
      · rintro ⟨x, hx, h⟩
        exact ⟨x, (List.Perm.mem_iff hp).mp hx, h⟩
      · rintro ⟨x, hx, h⟩
        exact ⟨x, (List.Perm.mem_iff hp).mpr hx, h⟩
    rw [← hiff]
    exact hg i

/-- The result of the sweep does not depend on the order in which the map is
visited. -/
theorem cleanupExpiredIn_order_irrelevant (now : Time) (order : List (String × Session))
    (o : Orchestrator) (hinv : Inv o) (hp : order.Perm o.sessions) :
    CleanupExpiredIn order now o = CleanupExpired now o := by
  obtain ⟨o₁, hc₁, _, ht₁, hb₁, hs₁, hg₁⟩ := cleanupExpiredIn_perm now order o hinv hp
  obtain ⟨o₂, hc₂, _, ht₂, hb₂, hs₂, hg₂⟩ :=
    cleanupExpiredIn_perm now o.sessions o hinv (List.Perm.refl _)
  have hgpus : o₁.gpus = o₂.gpus := by
    apply List.ext_getElem?
    intro i
    by_cases hex : ∃ e ∈ o.sessions, expired now o.timeout e.2 = true ∧ e.2.GPUID = (i : Int)
    · rw [(hg₁ i).1 hex, (hg₂ i).1 hex]
    · rw [(hg₁ i).2 hex, (hg₂ i).2 hex]
  have heq : o₁ = o₂ := by
    cases o₁
    cases o₂
    simp only at hgpus hs₁ hs₂ ht₁ ht₂ hb₁ hb₂
    simp only [Orchestrator.mk.injEq]
    exact ⟨hgpus, hs₁.trans hs₂.symm, hb₁.trans hb₂.symm, ht₁.trans ht₂.symm⟩
  unfold CleanupExpired
  rw [hc₁, hc₂, heq]

/-- The saturating subtraction `Sub` compares with a timeout like the exact
difference, for every timeout below the largest duration. -/
theorem timeSub_gt_iff (now t : Time) (timeout : Int)
    (h₁ : minDuration ≤ timeout) (h₂ : timeout < maxDuration) :
    Time.Sub now t > timeout ↔ now - t > timeout := by
  have hsub : ∀ d : Int, (if d > maxDuration then maxDuration
      else if d < minDuration then minDuration else d) > timeout ↔ d > timeout := by
    intro d
    by_cases hd : d > maxDuration
    · rw [if_pos hd]
      constructor <;> intro _ <;> omega
    · rw [if_neg hd]
      by_cases hd' : d < minDuration
      · rw [if_pos hd']
        constructor <;> intro _ <;> omega
      · rw [if_neg hd']
  exact hsub (now - t)

theorem inv_step (o o' : Orchestrator) (hinv : Inv o) (hs : Step o o') : Inv o' := by
  cases hs with
  | claim u clk => exact inv_claim o u clk hinv
  | release _ u err hr => exact inv_release o o' u err hinv hr
  | cleanup _ order now hp hc =>
    obtain ⟨o'', hc', hinv', _⟩ := cleanupExpiredIn_perm now order o hinv hp
    rw [hc] at hc'
    cases hc'
    exact hinv'

theorem inv_reachableFrom (o₀ o : Orchestrator) (hinv : Inv o₀) (h : ReachableFrom o₀ o) :
    Inv o := by
  induction h with
  | refl => exact hinv
  | step o1 o2 _ hs ih => exact inv_step o1 o2 ih hs

theorem inv_reachable (o : Orchestrator) (h : Reachable o) : Inv o := by
  obtain ⟨n, bp, t, o₀, hn, hr⟩ := h
  exact inv_reachableFrom o₀ o (inv_new n bp t o₀ hn) hr

/-! ## The slot layout is fixed -/

theorem slotLayout_updateAt (f : GPU → GPU) (hf : ∀ g, (f g).ID = g.ID ∧ (f g).Port = g.Port)
    (l : List GPU) (n : Nat) : slotLayout (updateAt f l n) = slotLayout l := by
  induction l generalizing n with
  | nil => rfl
  | cons g gs ih =>
    cases n with
    | zero => simp [updateAt, slotLayout, (hf g).1, (hf g).2]
    | succ n =>
      have := ih n
      simp only [slotLayout] at this
      simp [updateAt, slotLayout, this]

theorem slotLayout_length (l l' : List GPU) (h : slotLayout l' = slotLayout l) :
    l'.length = l.length := by
  have := congrArg List.length h
  simpa [slotLayout] using this

theorem slotLayout_claim (o : Orchestrator) (u : String) (clk : ClaimClock) :
    slotLayout (Claim o u clk).1.gpus = slotLayout o.gpus := by
  cases hs : sessionsGet o.sessions u with
  | some s => rw [claim_of_lease o u clk s hs]
  | none =>
    rcases claimScan_spec u clk.sessionStart o.gpus with ⟨_, hall⟩ | ⟨i, g, hg, ha, hlt, _⟩
    · rw [claim_of_full o u clk hs hall]
    · rw [claim_of_free o u clk hs i g hg ha hlt]
      exact slotLayout_updateAt (markClaimed u clk.sessionStart) (fun g => ⟨rfl, rfl⟩) _ _

theorem slotLayout_updateGPU (f : GPU → GPU) (hf : ∀ g, (f g).ID = g.ID ∧ (f g).Port = g.Port)
    (l l' : List GPU) (i : Int) (h : updateGPU f l i = some l') : slotLayout l' = slotLayout l := by
  unfold updateGPU at h
  split at h
  · cases h
    exact slotLayout_updateAt f hf l _
  · cases h

theorem slotLayout_release (o o' : Orchestrator) (u : String) (err : Option HTTPError)
    (h : Release o u = some (o', err)) : slotLayout o'.gpus = slotLayout o.gpus := by
  unfold Release at h
  split at h
  · cases h
    rfl
  · split at h
    · cases h
    · rename_i gpus' hu
      cases h
      exact slotLayout_updateGPU markReleased (fun g => ⟨rfl, rfl⟩) _ _ _ hu

theorem slotLayout_cleanupStep (now : Time) (o o' : Orchestrator) (e : String × Session)
    (h : cleanupStep now o e = some o') : slotLayout o'.gpus = slotLayout o.gpus := by
  unfold cleanupStep at h
  split at h
  · split at h
    · cases h
    · rename_i gpus' hu
      cases h
      exact slotLayout_updateGPU markExpired (fun g => ⟨rfl, rfl⟩) _ _ _ hu
  · cases h
    rfl

theorem slotLayout_cleanupExpiredIn (now : Time) (order : List (String × Session)) :
    ∀ (o o' : Orchestrator), CleanupExpiredIn order now o = some o' →
      slotLayout o'.gpus = slotLayout o.gpus := by
  induction order with
  | nil =>
    intro o o' h
    rw [cleanupExpiredIn_nil] at h
    cases h
    rfl
  | cons e rest ih =>
    intro o o' h
    rw [cleanupExpiredIn_cons] at h
    cases h1 : cleanupStep now o e with
    | none => rw [h1] at h; cases h
    | some o1 =>
      rw [h1] at h
      exact (ih o1 o' h).trans (slotLayout_cleanupStep now o o1 e h1)

theorem slotLayout_step (o o' : Orchestrator) (hs : Step o o') :
    slotLayout o'.gpus = slotLayout o.gpus := by
  cases hs with
  | claim u clk => exact slotLayout_claim o u clk
  | release _ u err hr => exact slotLayout_release o o' u err hr
  | cleanup _ order now hp hc => exact slotLayout_cleanupExpiredIn now order o o' hc

theorem slotLayout_reachableFrom (o₀ o : Orchestrator) (h : ReachableFrom o₀ o) :
    slotLayout o.gpus = slotLayout o₀.gpus := by
  induction h with
  | refl => rfl
  | step o1 o2 _ hs ih => exact (slotLayout_step o1 o2 hs).trans ih

/-! ## Slots after an update -/

theorem slotAt_updateAt_self (f : GPU → GPU) (l : List GPU) (i : Int) (g : GPU)
    (h : slotAt l i = some g) : slotAt (updateAt f l i.toNat) i = some (f g) := by
  obtain ⟨h0, _, hget⟩ := slotAt_eq_some l i g h
  simp only [slotAt, h0, if_true, updateAt_getElem?, hget]
  rfl

theorem slotAt_updateAt_other (f : GPU → GPU) (l : List GPU) (i j : Int) (h0 : 0 ≤ i)
    (hne : j ≠ i) : slotAt (updateAt f l i.toNat) j = slotAt l j := by
  unfold slotAt
  by_cases hj : 0 ≤ j
  · have : j.toNat ≠ i.toNat := by omega
    simp only [hj, if_true, updateAt_getElem?, if_neg this]
  · simp only [hj, if_false]

theorem available_updateAt_updateAt (f f' : GPU → GPU) (l : List GPU) (i : Nat) (g : GPU)
    (hg : l[i]? = some g) (hf : (f' (f g)).Available = g.Available) :
    (updateAt f' (updateAt f l i) i).map (fun g => g.Available) =
      l.map (fun g => g.Available) := by
  apply List.ext_getElem?
  intro j
  simp only [List.getElem?_map, updateAt_getElem?]
  by_cases hj : j = i
  · subst hj
    simp [hg, hf]
  · simp [hj]

theorem unavailableCount_eq_of_available (l l' : List GPU)
    (h : l'.map (fun g => g.Available) = l.map (fun g => g.Available)) :
    unavailableCount l' = unavailableCount l := by
  have e : ∀ l : List GPU, unavailableCount l =
      (l.map (fun g => g.Available)).countP (fun b => !b) := by
    intro l
    simp [unavailableCount, List.countP_map, Function.comp_def]
  rw [e l', e l, h]

/-! ## Filling the pool -/

/-- A run of claims by new, pairwise distinct users on a pool whose available
slots are exactly those of index `k` and above: the claims take the slots `k`,
`k + 1`, ... in order. -/
theorem claimAll_spec (calls : List (String × ClaimClock)) :
    ∀ (o : Orchestrator) (k : Nat), Inv o →
      (∀ (j : Nat) (g : GPU), o.gpus[j]? = some g → (g.Available = true ↔ k ≤ j)) →
      k + calls.length ≤ o.gpus.length →
      (calls.map Prod.fst).Nodup →
      (∀ c ∈ calls, sessionsGet o.sessions c.1 = none) →
      Inv (claimAll o calls).1 ∧
      (claimAll o calls).1.gpus.length = o.gpus.length ∧
      (∀ (j : Nat) (g : GPU), (claimAll o calls).1.gpus[j]? = some g →
        (g.Available = true ↔ k + calls.length ≤ j)) ∧
      sessionKeys (claimAll o calls).1.sessions = sessionKeys o.sessions ++ calls.map Prod.fst ∧
      (claimAll o calls).2.length = calls.length ∧
      ∀ (i : Nat) (u : String) (clk : ClaimClock), calls[i]? = some (u, clk) →
        ∃ s : Session, (claimAll o calls).2[i]? = some (some s, none) ∧
          s.GPUID = ((k + i : Nat) : Int) ∧ s.UserID = u := by
  induction calls with
  | nil =>
    intro o k hinv hav _ _ _
    refine ⟨hinv, rfl, ?_, by simp [claimAll], rfl, ?_⟩
    · intro j g hj
      simpa using hav j g hj
    · intro i u clk hi
      simp at hi
  | cons c rest ih =>
    obtain ⟨u, clk⟩ := c
    intro o k hinv hav hlen hnd hnew
    simp only [List.length_cons] at hlen
    simp only [List.map_cons, List.nodup_cons] at hnd
    have hu : sessionsGet o.sessions u = none := hnew (u, clk) (List.mem_cons_self _ _)
    have hk : k < o.gpus.length := by omega
    obtain ⟨g, hg⟩ : ∃ g, o.gpus[k]? = some g := ⟨o.gpus[k], List.getElem?_eq_getElem hk⟩
    have ha : g.Available = true := (hav k g hg).mpr (Nat.le_refl k)
    have hlt : ∀ (j : Nat) (g' : GPU), j < k → o.gpus[j]? = some g' → g'.Available = false := by
      intro j g' hj hj'
      cases hb : g'.Available with
      | false => rfl
      | true =>
        have := (hav j g' hj').mp hb
        omega
    have hc := claim_of_free o u clk hu k g hg ha hlt
    obtain ⟨o₁, ho₁⟩ : ∃ o₁ : Orchestrator, o₁ =
        { o with
          gpus := updateAt (markClaimed u clk.sessionStart) o.gpus k
          sessions := o.sessions ++
            [(u, newSession u clk (markClaimed u clk.sessionStart g))] } := ⟨_, rfl⟩
    rw [← ho₁] at hc
    have hinv₁ : Inv o₁ := by
      rw [ho₁]
      exact inv_claimed o u clk k g hinv hu hg ha
    have hg₁ : o₁.gpus = updateAt (markClaimed u clk.sessionStart) o.gpus k := by rw [ho₁]
    have hs₁ : o₁.sessions =
        o.sessions ++ [(u, newSession u clk (markClaimed u clk.sessionStart g))] := by rw [ho₁]
    have hav₁ : ∀ (j : Nat) (g' : GPU), o₁.gpus[j]? = some g' →
        (g'.Available = true ↔ k + 1 ≤ j) := by
      intro j g' hj
      rw [hg₁, updateAt_getElem?] at hj
      by_cases hjk : j = k
      · subst hjk
        rw [if_pos rfl, hg] at hj
        simp only [Option.map_some', Option.some.injEq] at hj
        subst hj
        simp [markClaimed]
      · rw [if_neg hjk] at hj
        rw [hav j g' hj]
        omega
    have hlen₁ : o₁.gpus.length = o.gpus.length := by
      rw [hg₁]
      exact updateAt_length _ _ _
    have hnew₁ : ∀ c ∈ rest, sessionsGet o₁.sessions c.1 = none := by
      intro c hcm
      have hne : c.1 ≠ u := by
        intro heq
        apply hnd.1
        rw [← heq]
        exact List.mem_map_of_mem Prod.fst hcm
      rw [hs₁, sessionsGet_append_entry _ _ _ _ hu, if_neg hne]
      exact hnew c (List.mem_cons_of_mem _ hcm)
    obtain ⟨r1, r2, r3, r4, r5, r6⟩ :=
      ih o₁ (k + 1) hinv₁ hav₁ (by omega) hnd.2 hnew₁
    have hfst : (claimAll o ((u, clk) :: rest)).1 = (claimAll o₁ rest).1 := by
      simp only [claimAll, hc]
    have hsnd : (claimAll o ((u, clk) :: rest)).2 =
        (some (newSession u clk (markClaimed u clk.sessionStart g)), none) ::
          (claimAll o₁ rest).2 := by
      simp only [claimAll, hc]
    rw [hfst, hsnd]
    refine ⟨r1, r2.trans hlen₁, ?_, ?_, ?_, ?_⟩
    · intro j g' hj
      rw [r3 j g' hj, List.length_cons]
      omega
    · rw [r4, hs₁]
      simp [sessionKeys]
    · simp [r5]
    · intro i v clk' hi
      cases i with
      | zero =>
        simp only [List.getElem?_cons_zero, Option.some.injEq, Prod.mk.injEq] at hi
        refine ⟨newSession u clk (markClaimed u clk.sessionStart g),
          List.getElem?_cons_zero, ?_, ?_⟩
        · show g.ID = _
          rw [hinv.ids k g hg]
          rfl
        · exact hi.1
      | succ i =>
        simp only [List.getElem?_cons_succ] at hi
        obtain ⟨s, hs, hsid, hsu⟩ := r6 i v clk' hi
        refine ⟨s, by simpa using hs, ?_, hsu⟩
        rw [hsid]
        congr 1
        omega

/-! ## Sample states -/

theorem newOrchestrator_pool2 : NewOrchestrator 2 47984 14400000000000 = some pool2 := by
  decide

theorem reachable_pool2 : Reachable pool2 :=
  ⟨2, 47984, 14400000000000, pool2, newOrchestrator_pool2, ReachableFrom.refl⟩

theorem reachable_poolAlice : Reachable poolAlice :=
  ⟨2, 47984, 14400000000000, pool2, newOrchestrator_pool2,
    ReachableFrom.step pool2 poolAlice ReachableFrom.refl (Step.claim pool2 "alice" clockA)⟩

theorem reachable_poolFull : Reachable poolFull :=
  ⟨2, 47984, 14400000000000, pool2, newOrchestrator_pool2,
    ReachableFrom.step poolAlice poolFull
      (ReachableFrom.step pool2 poolAlice ReachableFrom.refl (Step.claim pool2 "alice" clockA))
      (Step.claim poolAlice "bob" clockB)⟩

/-! ## The claims -/

/-- C1. No double allocation: in every state reachable from `NewOrchestrator` by
`Claim`, `Release` and `CleanupExpired` calls, the session table has one entry per
user; every lease stored under key `u` has `UserID = u` and references a slot
that is unavailable and held by `u`; no two leases reference the same slot; and
every unavailable slot is referenced by exactly one lease. -/
theorem no_double_allocation (o : Orchestrator) (h : Reachable o) :
    (sessionKeys o.sessions).Nodup ∧
    (∀ (u : String) (s : Session), (u, s) ∈ o.sessions →
      s.UserID = u ∧
      ∃ g, slotAt o.gpus s.GPUID = some g ∧ g.Available = false ∧ g.UserID = u) ∧
    (∀ e₁ ∈ o.sessions, ∀ e₂ ∈ o.sessions, e₁.2.GPUID = e₂.2.GPUID → e₁ = e₂) ∧
    (∀ (i : Int) (g : GPU), slotAt o.gpus i = some g → g.Available = false →
      ∃! e, e ∈ o.sessions ∧ e.2.GPUID = i) := by
  have hinv := inv_reachable o h
  have hinj : ∀ e₁ ∈ o.sessions, ∀ e₂ ∈ o.sessions, e₁.2.GPUID = e₂.2.GPUID → e₁ = e₂ := by
    intro e₁ h₁ e₂ h₂ heq
    obtain ⟨_, g₁, hg₁, _, hu₁⟩ := hinv.lease e₁.1 e₁.2 h₁
    obtain ⟨_, g₂, hg₂, _, hu₂⟩ := hinv.lease e₂.1 e₂.2 h₂
    rw [heq, hg₂] at hg₁
    cases hg₁
    exact entry_eq_of_key_eq _ hinv.keys e₁ e₂ h₁ h₂ (hu₁.symm.trans hu₂)
  refine ⟨hinv.keys, hinv.lease, hinj, ?_⟩
  intro i g hg hav
  obtain ⟨h0, _, hget⟩ := slotAt_eq_some _ _ _ hg
  obtain ⟨s, hm, hs⟩ := hinv.held i.toNat g hget hav
  have hsi : s.GPUID = i := by omega
  refine ⟨(g.UserID, s), ⟨hm, hsi⟩, ?_⟩
  rintro e ⟨he, hei⟩
  exact hinj e he (g.UserID, s) hm (hei.trans hsi.symm)

/-- Witness for C1: the pool of two slots after `Claim("alice")`. -/
theorem no_double_allocation_witness :
    Reachable poolAlice ∧
    ((sessionKeys poolAlice.sessions).Nodup ∧
    (∀ (u : String) (s : Session), (u, s) ∈ poolAlice.sessions →
      s.UserID = u ∧
      ∃ g, slotAt poolAlice.gpus s.GPUID = some g ∧ g.Available = false ∧ g.UserID = u) ∧
    (∀ e₁ ∈ poolAlice.sessions, ∀ e₂ ∈ poolAlice.sessions, e₁.2.GPUID = e₂.2.GPUID → e₁ = e₂) ∧
    (∀ (i : Int) (g : GPU), slotAt poolAlice.gpus i = some g → g.Available = false →
      ∃! e, e ∈ poolAlice.sessions ∧ e.2.GPUID = i)) :=
  ⟨reachable_poolAlice, no_double_allocation poolAlice reachable_poolAlice⟩

/-- C2. `NewOrchestrator(count, ...)` returns a pool for every `count >= 0` that
`make` accepts, and in every state reached from a pool it returned by `Claim`,
`Release` and `CleanupExpired` calls the number of slots with
`Available == false` equals the number of entries of the session table (whose
keys are pairwise distinct), and that number does not exceed `count`. -/
theorem unavailable_count_eq_leases (count basePort timeout : Int) :
    (0 ≤ count → count * sizeofGPU ≤ maxAlloc →
      ∃ o₀, NewOrchestrator count basePort timeout = some o₀) ∧
    ∀ o₀, NewOrchestrator count basePort timeout = some o₀ →
      0 ≤ count ∧
      ∀ o, ReachableFrom o₀ o →
        unavailableCount o.gpus = o.sessions.length ∧
        (sessionKeys o.sessions).Nodup ∧
        (o.sessions.length : Int) ≤ count := by
  refine ⟨fun hc hm => ⟨_, newOrchestrator_of_fits count basePort timeout hc hm⟩, ?_⟩
  intro o₀ h₀
  obtain ⟨hc, hg, _, _, _⟩ := newOrchestrator_eq_some count basePort timeout o₀ h₀
  refine ⟨hc, ?_⟩
  intro o hr
  have hinv := inv_reachableFrom o₀ o (inv_new count basePort timeout o₀ h₀) hr
  have hlen : o.gpus.length = o₀.gpus.length :=
    slotLayout_length _ _ (slotLayout_reachableFrom o₀ o hr)
  have hlen₀ : o₀.gpus.length = count.toNat := by
    rw [hg]
    simp
  have hle := unavailableCount_le_length o.gpus
  refine ⟨hinv.count, hinv.keys, ?_⟩
  have := hinv.count
  omega

/-- Witness for C2: a pool of two slots. -/
theorem unavailable_count_eq_leases_witness :
    (∃ o₀, NewOrchestrator 2 47984 14400000000000 = some o₀) ∧
    NewOrchestrator 2 47984 14400000000000 = some pool2 ∧
    (0 : Int) ≤ 2 ∧
    ∀ o, ReachableFrom pool2 o →
      unavailableCount o.gpus = o.sessions.length ∧
      (sessionKeys o.sessions).Nodup ∧
      (o.sessions.length : Int) ≤ 2 :=
  ⟨(unavailable_count_eq_leases 2 47984 14400000000000).1 (by decide) (by decide),
    newOrchestrator_pool2,
    (unavailable_count_eq_leases 2 47984 14400000000000).2 pool2 newOrchestrator_pool2⟩

/-- C3. `Claim` is idempotent per user: when `u` already has a lease `s` in the
session table, `Claim(u)` returns exactly `s` with no error and leaves the slot
table and the session table unchanged, for every clock reading and whatever the
availability of the slots; and after any `Claim(u)` that returned a lease, a
second `Claim(u)` returns the same lease and changes nothing. -/
theorem claim_idempotent (o : Orchestrator) (u : String) (clk clk' : ClaimClock) :
    (∀ s, sessionsGet o.sessions u = some s → Claim o u clk = (o, some s, none)) ∧
    (∀ s, (Claim o u clk).2.1 = some s →
      Claim (Claim o u clk).1 u clk' = ((Claim o u clk).1, some s, none)) := by
  refine ⟨fun s hs => claim_of_lease o u clk s hs, ?_⟩
  intro s hs
  apply claim_of_lease
  cases hg : sessionsGet o.sessions u with
  | some s' =>
    rw [claim_of_lease o u clk s' hg] at hs ⊢
    simp only [Option.some.injEq] at hs
    rw [← hs]
    exact hg
  | none =>
    rcases claimScan_spec u clk.sessionStart o.gpus with ⟨_, hall⟩ | ⟨i, g, hgi, ha, hlt, _⟩
    · rw [claim_of_full o u clk hg hall] at hs
      cases hs
    · rw [claim_of_free o u clk hg i g hgi ha hlt] at hs ⊢
      simp only [Option.some.injEq] at hs
      subst hs
      show sessionsGet (o.sessions ++ _) u = _
      rw [sessionsGet_append_entry _ _ _ _ hg, if_pos rfl]

/-- Witness for C3: `alice` claims again on `poolAlice`, and claims twice in a row
on `pool2`. -/
theorem claim_idempotent_witness :
    Claim poolAlice "alice" clockB = (poolAlice, some aliceSession, none) ∧
    Claim (Claim pool2 "alice" clockA).1 "alice" clockB =
      ((Claim pool2 "alice" clockA).1, some aliceSession, none) :=
  ⟨(claim_idempotent poolAlice "alice" clockB clockB).1 aliceSession (by decide),
    (claim_idempotent pool2 "alice" clockA clockB).2 aliceSession (by decide)⟩

/-- C4. First-free-slot allocation: in a reachable state where `u` has no lease
and some slot is available, `Claim(u)` returns without error a lease with
`UserID = u`, `GPUID` the smallest `ID` among the available slots and `Port` the
port of that slot; afterwards that slot is unavailable with holder `u`, the
lease is stored under key `u`, and every other slot and every other lease is
unchanged. -/
theorem claim_first_free (o : Orchestrator) (u : String) (clk : ClaimClock)
    (h : Reachable o) (hu : sessionsGet o.sessions u = none)
    (hav : ∃ g ∈ o.gpus, g.Available = true) :
    ∃ (g : GPU) (o' : Orchestrator) (s : Session),
      slotAt o.gpus g.ID = some g ∧ g.Available = true ∧
      (∀ g' ∈ o.gpus, g'.Available = true → g.ID ≤ g'.ID) ∧
      Claim o u clk = (o', some s, none) ∧
      s.UserID = u ∧ s.GPUID = g.ID ∧ s.Port = g.Port ∧
      slotAt o'.gpus g.ID =
        some { g with Available := false, UserID := u, SessionStart := clk.sessionStart } ∧
      (∀ j : Int, j ≠ g.ID → slotAt o'.gpus j = slotAt o.gpus j) ∧
      o'.gpus.length = o.gpus.length ∧
      sessionsGet o'.sessions u = some s ∧
      (∀ v : String, v ≠ u → sessionsGet o'.sessions v = sessionsGet o.sessions v) ∧
      o'.sessions = o.sessions ++ [(u, s)] := by
  have hinv := inv_reachable o h
  rcases claimScan_spec u clk.sessionStart o.gpus with ⟨_, hall⟩ | ⟨i, g, hg, ha, hlt, _⟩
  · obtain ⟨g, hgm, hga⟩ := hav
    rw [hall g hgm] at hga
    cases hga
  · have hid : g.ID = (i : Int) := hinv.ids i g hg
    refine ⟨g, _, _, ?_, ha, ?_, claim_of_free o u clk hu i g hg ha hlt, rfl, rfl, rfl,
      ?_, ?_, ?_, ?_, ?_, rfl⟩
    · rw [hid, slotAt_natCast]
      exact hg
    · intro g' hm' ha'
      obtain ⟨j, hj⟩ := List.mem_iff_getElem?.mp hm'
      rw [hid, hinv.ids j g' hj]
      by_contra hc
      have := hlt j g' (by omega) hj
      rw [ha'] at this
      cases this
    · have hnew : slotAt (updateAt (markClaimed u clk.sessionStart) o.gpus i) (i : Int) =
          some (markClaimed u clk.sessionStart g) := by
        rw [slotAt_natCast, updateAt_getElem?, if_pos rfl, hg]
        rfl
      rw [← hid] at hnew
      exact hnew
    · intro j hj
      rw [hid] at hj
      unfold slotAt
      by_cases h0 : 0 ≤ j
      · have hne : j.toNat ≠ i := by omega
        simp only [h0, if_true, updateAt_getElem?, if_neg hne]
      · simp only [h0, if_false]
    · exact updateAt_length _ _ _
    · show sessionsGet (o.sessions ++ _) u = _
      rw [sessionsGet_append_entry _ _ _ _ hu, if_pos rfl]
    · intro v hv
      show sessionsGet (o.sessions ++ _) v = _
      rw [sessionsGet_append_entry _ _ _ _ hu, if_neg hv]

/-- Witness for C4: `bob` claims on `poolAlice`, where slot 1 is the only
available slot. -/
theorem claim_first_free_witness :
    Reachable poolAlice ∧ sessionsGet poolAlice.sessions "bob" = none ∧
    (∃ g ∈ poolAlice.gpus, g.Available = true) ∧
    ∃ (g : GPU) (o' : Orchestrator) (s : Session),
      slotAt poolAlice.gpus g.ID = some g ∧ g.Available = true ∧
      (∀ g' ∈ poolAlice.gpus, g'.Available = true → g.ID ≤ g'.ID) ∧
      Claim poolAlice "bob" clockB = (o', some s, none) ∧
      s.UserID = "bob" ∧ s.GPUID = g.ID ∧ s.Port = g.Port ∧
      slotAt o'.gpus g.ID =
        some { g with Available := false, UserID := "bob", SessionStart := clockB.sessionStart } ∧
      (∀ j : Int, j ≠ g.ID → slotAt o'.gpus j = slotAt poolAlice.gpus j) ∧
      o'.gpus.length = poolAlice.gpus.length ∧
      sessionsGet o'.sessions "bob" = some s ∧
      (∀ v : String, v ≠ "bob" → sessionsGet o'.sessions v = sessionsGet poolAlice.sessions v) ∧
      o'.sessions = poolAlice.sessions ++ [("bob", s)] :=
  ⟨reachable_poolAlice, by decide,
    ⟨{ ID := 1, Available := true, UserID := "", SessionStart := 0, Port := 47994 },
      by decide, rfl⟩,
    claim_first_free poolAlice "bob" clockB reachable_poolAlice (by decide)
      ⟨{ ID := 1, Available := true, UserID := "", SessionStart := 0, Port := 47994 },
        by decide, rfl⟩⟩

/-- C5. `Claim(u)` returns an error if and only if `u` has no lease in the session
table and no slot has `Available == true`; the error is then
`ErrNoAvailableGPU`, no lease is returned, and the slot table and the session
table are unchanged. -/
theorem claim_fails_iff (o : Orchestrator) (u : String) (clk : ClaimClock) :
    ((Claim o u clk).2.2 ≠ none ↔
      (sessionsGet o.sessions u = none ∧ ∀ g ∈ o.gpus, g.Available = false)) ∧
    ((Claim o u clk).2.2 ≠ none → Claim o u clk = (o, none, some ErrNoAvailableGPU)) := by
  have key : (Claim o u clk).2.2 ≠ none →
      (sessionsGet o.sessions u = none ∧ ∀ g ∈ o.gpus, g.Available = false) := by
    intro hne
    cases hs : sessionsGet o.sessions u with
    | some s =>
      rw [claim_of_lease o u clk s hs] at hne
      exact absurd rfl hne
    | none =>
      rcases claimScan_spec u clk.sessionStart o.gpus with ⟨_, hall⟩ | ⟨i, g, hg, ha, hlt, _⟩
      · exact ⟨rfl, hall⟩
      · rw [claim_of_free o u clk hs i g hg ha hlt] at hne
        exact absurd rfl hne
  refine ⟨⟨key, ?_⟩, ?_⟩
  · rintro ⟨hs, hall⟩
    rw [claim_of_full o u clk hs hall]
    simp
  · intro hne
    obtain ⟨hs, hall⟩ := key hne
    exact claim_of_full o u clk hs hall

/-- Witness for C5: `carol` claims on the full pool `poolFull`. -/
theorem claim_fails_iff_witness :
    (sessionsGet poolFull.sessions "carol" = none ∧ ∀ g ∈ poolFull.gpus, g.Available = false) ∧
    Claim poolFull "carol" clockB = (poolFull, none, some ErrNoAvailableGPU) :=
  ⟨(claim_fails_iff poolFull "carol" clockB).1.mp (by decide),
    (claim_fails_iff poolFull "carol" clockB).2 (by decide)⟩

/-- C6. Exhaustion: for pairwise distinct users, one per element of `calls`,
`NewOrchestrator(N, ...)` with `N` the number of users returns a pool whenever
`make` accepts `N`, and on every pool it returns the `N` claims made in order
all succeed, the `i`-th (from 0) receiving slot `i`; then `Claim` by any user
not in the list fails with `ErrNoAvailableGPU`; and after `Release` of any one
of the `N` users (which succeeds), `Claim` by any user without a lease
succeeds. -/
theorem exhaustion (calls : List (String × ClaimClock)) (basePort timeout : Int)
    (hnd : (calls.map Prod.fst).Nodup) :
    ((calls.length : Int) * sizeofGPU ≤ maxAlloc →
      ∃ o₀ : Orchestrator, NewOrchestrator (calls.length : Int) basePort timeout = some o₀) ∧
    ∀ o₀ : Orchestrator,
      NewOrchestrator (calls.length : Int) basePort timeout = some o₀ →
      (claimAll o₀ calls).2.length = calls.length ∧
      (∀ (i : Nat) (u : String) (clk : ClaimClock), calls[i]? = some (u, clk) →
        ∃ s : Session, (claimAll o₀ calls).2[i]? = some (some s, none) ∧
          s.GPUID = (i : Int) ∧ s.UserID = u) ∧
      (∀ (v : String) (clk : ClaimClock), v ∉ calls.map Prod.fst →
        Claim (claimAll o₀ calls).1 v clk =
          ((claimAll o₀ calls).1, none, some ErrNoAvailableGPU)) ∧
      (∀ u ∈ calls.map Prod.fst,
        ∃ o₁ : Orchestrator, Release (claimAll o₀ calls).1 u = some (o₁, none) ∧
          ∀ (v : String) (clk : ClaimClock), sessionsGet o₁.sessions v = none →
            ∃ (o₂ : Orchestrator) (s : Session), Claim o₁ v clk = (o₂, some s, none)) := by
  refine ⟨fun hm => ⟨_, newOrchestrator_of_fits _ basePort timeout (by omega) hm⟩, ?_⟩
  intro o₀ h₀
  have hinv₀ := inv_new _ _ _ o₀ h₀
  obtain ⟨_, hg₀, hs₀, _, _⟩ := newOrchestrator_eq_some _ _ _ o₀ h₀
  have hlen₀ : o₀.gpus.length = calls.length := by
    rw [hg₀]
    simp
  have hav₀ : ∀ (j : Nat) (g : GPU), o₀.gpus[j]? = some g → (g.Available = true ↔ 0 ≤ j) := by
    intro j g hj
    rw [hg₀] at hj
    obtain ⟨_, rfl⟩ := newOrchestrator_getElem? _ _ _ _ hj
    simp [newGPU]
  obtain ⟨r1, r2, r3, r4, r5, r6⟩ := claimAll_spec calls o₀ 0 hinv₀ hav₀ (by omega) hnd
    (by intro c _; rw [hs₀]; rfl)
  have hfull : ∀ g ∈ (claimAll o₀ calls).1.gpus, g.Available = false := by
    intro g hg
    obtain ⟨j, hj⟩ := List.mem_iff_getElem?.mp hg
    have hjlt : j < (claimAll o₀ calls).1.gpus.length := by
      by_contra hc
      rw [List.getElem?_eq_none (Nat.le_of_not_lt hc)] at hj
      cases hj
    cases hb : g.Available with
    | false => rfl
    | true =>
      have := (r3 j g hj).mp hb
      omega
  have hkeys : sessionKeys (claimAll o₀ calls).1.sessions = calls.map Prod.fst := by
    rw [r4, hs₀]
    rfl
  refine ⟨r5, ?_, ?_, ?_⟩
  · intro i u clk hi
    obtain ⟨s, hs, hsid, hsu⟩ := r6 i u clk hi
    refine ⟨s, hs, ?_, hsu⟩
    rw [hsid, Nat.zero_add]
  · intro v clk hv
    apply claim_of_full _ _ _ _ hfull
    rw [sessionsGet_eq_none_iff, hkeys]
    exact hv
  · intro u hu
    cases hget : sessionsGet (claimAll o₀ calls).1.sessions u with
    | none =>
      rw [sessionsGet_eq_none_iff, hkeys] at hget
      exact absurd hu hget
    | some s =>
      obtain ⟨_, g, hslot, _, _⟩ := r1.lease u s (mem_of_sessionsGet _ _ _ hget)
      refine ⟨_, release_of_slot _ u s g hget hslot, ?_⟩
      intro v clk hv
      have hfree := slotAt_updateAt_self markReleased _ _ _ hslot
      obtain ⟨_, _, hfree'⟩ := slotAt_eq_some _ _ _ hfree
      rcases claimScan_spec v clk.sessionStart
        (freeLease markReleased (claimAll o₀ calls).1 u s).gpus with
        ⟨_, hall⟩ | ⟨i, g₁, hg₁, ha₁, hlt₁, _⟩
      · have := hall _ (List.getElem?_mem hfree')
        cases this
      · exact ⟨_, _, claim_of_free _ v clk hv i g₁ hg₁ ha₁ hlt₁⟩

/-- Witness for C6: the users `alice` and `bob` on a pool of two slots. -/
theorem exhaustion_witness :
    ([("alice", clockA), ("bob", clockB)].map Prod.fst).Nodup ∧
    (∃ o₀ : Orchestrator,
      NewOrchestrator (([("alice", clockA), ("bob", clockB)] : List (String × ClaimClock)).length : Int)
        47984 14400000000000 = some o₀) ∧
    NewOrchestrator (([("alice", clockA), ("bob", clockB)] : List (String × ClaimClock)).length : Int)
      47984 14400000000000 = some pool2 ∧
    (claimAll pool2 [("alice", clockA), ("bob", clockB)]).2.length =
      ([("alice", clockA), ("bob", clockB)] : List (String × ClaimClock)).length ∧
    (∀ (i : Nat) (u : String) (clk : ClaimClock),
      ([("alice", clockA), ("bob", clockB)] : List (String × ClaimClock))[i]? = some (u, clk) →
      ∃ s : Session,
        (claimAll pool2 [("alice", clockA), ("bob", clockB)]).2[i]? = some (some s, none) ∧
        s.GPUID = (i : Int) ∧ s.UserID = u) ∧
    (∀ (v : String) (clk : ClaimClock),
      v ∉ ([("alice", clockA), ("bob", clockB)] : List (String × ClaimClock)).map Prod.fst →
      Claim (claimAll pool2 [("alice", clockA), ("bob", clockB)]).1 v clk =
        ((claimAll pool2 [("alice", clockA), ("bob", clockB)]).1, none,
          some ErrNoAvailableGPU)) ∧
    (∀ u ∈ ([("alice", clockA), ("bob", clockB)] : List (String × ClaimClock)).map Prod.fst,
      ∃ o₁ : Orchestrator,
        Release (claimAll pool2 [("alice", clockA), ("bob", clockB)]).1 u = some (o₁, none) ∧
        ∀ (v : String) (clk : ClaimClock), sessionsGet o₁.sessions v = none →
          ∃ (o₂ : Orchestrator) (s : Session), Claim o₁ v clk = (o₂, some s, none)) :=
  ⟨by decide,
    (exhaustion [("alice", clockA), ("bob", clockB)] 47984 14400000000000 (by decide)).1
      (by decide),
    by decide,
    (exhaustion [("alice", clockA), ("bob", clockB)] 47984 14400000000000 (by decide)).2
      pool2 (by decide)⟩

/-- C7. `Release(u)` returns an error if and only if `u` has no lease in the
session table; the error is then `ErrSessionNotFound` and the slot table and the
session table are unchanged.  After a `Release(u)` that returned, a second
`Release(u)` returns `ErrSessionNotFound` and changes nothing. -/
theorem release_fails_iff (o : Orchestrator) (u : String) :
    (sessionsGet o.sessions u = none ↔ ∃ o' err, Release o u = some (o', some err)) ∧
    (∀ o' err, Release o u = some (o', some err) → o' = o ∧ err = ErrSessionNotFound) ∧
    (∀ o₁ r, Release o u = some (o₁, r) →
      Release o₁ u = some (o₁, some ErrSessionNotFound)) := by
  have key : ∀ o' err, Release o u = some (o', some err) →
      sessionsGet o.sessions u = none ∧ o' = o ∧ err = ErrSessionNotFound := by
    intro o' err h
    unfold Release at h
    split at h
    · rename_i hs
      cases h
      exact ⟨hs, rfl, rfl⟩
    · split at h <;> cases h
  refine ⟨⟨?_, ?_⟩, ?_, ?_⟩
  · intro hs
    exact ⟨o, ErrSessionNotFound, release_of_absent o u hs⟩
  · rintro ⟨o', err, h⟩
    exact (key o' err h).1
  · intro o' err h
    exact (key o' err h).2
  · intro o₁ r h
    apply release_of_absent
    unfold Release at h
    split at h
    · rename_i hs
      cases h
      exact hs
    · split at h
      · cases h
      · cases h
        show sessionsGet (sessionsDelete o.sessions u) u = none
        rw [sessionsGet_sessionsDelete, if_pos rfl]

/-- Witness for C7: `bob` has no lease in `poolAlice`; and `alice` releases twice. -/
theorem release_fails_iff_witness :
    (∃ o' err, Release poolAlice "bob" = some (o', some err)) ∧
    Release poolReleased "alice" = some (poolReleased, some ErrSessionNotFound) :=
  ⟨(release_fails_iff poolAlice "bob").1.mp (by decide),
    (release_fails_iff poolAlice "alice").2.2 poolReleased none (by decide)⟩

/-- C8. In a reachable state where `u` holds a lease `s`, `Release(u)` returns
without error; afterwards the slot `s.GPUID` has `Available == true`, an empty
`UserID` and the zero `SessionStart` (its other fields unchanged), `u` is no
longer a key of the session table, and every other slot and the lease of every
other user is unchanged. -/
theorem release_frees_slot (o : Orchestrator) (u : String) (s : Session)
    (h : Reachable o) (hs : sessionsGet o.sessions u = some s) :
    ∃ (g : GPU) (o' : Orchestrator),
      slotAt o.gpus s.GPUID = some g ∧
      Release o u = some (o', none) ∧
      slotAt o'.gpus s.GPUID =
        some { g with Available := true, UserID := "", SessionStart := zeroTime } ∧
      sessionsGet o'.sessions u = none ∧ u ∉ sessionKeys o'.sessions ∧
      (∀ j : Int, j ≠ s.GPUID → slotAt o'.gpus j = slotAt o.gpus j) ∧
      o'.gpus.length = o.gpus.length ∧
      (∀ v : String, v ≠ u → sessionsGet o'.sessions v = sessionsGet o.sessions v) ∧
      (∀ e : String × Session, e ∈ o'.sessions ↔ e ∈ o.sessions ∧ e.1 ≠ u) := by
  have hinv := inv_reachable o h
  obtain ⟨_, g, hg, _, _⟩ := hinv.lease u s (mem_of_sessionsGet _ _ _ hs)
  obtain ⟨h0, _, _⟩ := slotAt_eq_some _ _ _ hg
  have hnone : sessionsGet (sessionsDelete o.sessions u) u = none := by
    rw [sessionsGet_sessionsDelete, if_pos rfl]
  refine ⟨g, _, hg, release_of_slot o u s g hs hg, ?_, hnone,
    (sessionsGet_eq_none_iff _ _).mp hnone, ?_, ?_, ?_, ?_⟩
  · exact slotAt_updateAt_self markReleased o.gpus s.GPUID g hg
  · intro j hj
    exact slotAt_updateAt_other markReleased o.gpus s.GPUID j h0 hj
  · exact updateAt_length _ _ _
  · intro v hv
    show sessionsGet (sessionsDelete o.sessions u) v = _
    rw [sessionsGet_sessionsDelete, if_neg hv]
  · intro e
    exact mem_sessionsDelete _ _ _

/-- Witness for C8: `alice` releases her lease in `poolAlice`. -/
theorem release_frees_slot_witness :
    Reachable poolAlice ∧ sessionsGet poolAlice.sessions "alice" = some aliceSession ∧
    ∃ (g : GPU) (o' : Orchestrator),
      slotAt poolAlice.gpus aliceSession.GPUID = some g ∧
      Release poolAlice "alice" = some (o', none) ∧
      slotAt o'.gpus aliceSession.GPUID =
        some { g with Available := true, UserID := "", SessionStart := zeroTime } ∧
      sessionsGet o'.sessions "alice" = none ∧ "alice" ∉ sessionKeys o'.sessions ∧
      (∀ j : Int, j ≠ aliceSession.GPUID → slotAt o'.gpus j = slotAt poolAlice.gpus j) ∧
      o'.gpus.length = poolAlice.gpus.length ∧
      (∀ v : String, v ≠ "alice" →
        sessionsGet o'.sessions v = sessionsGet poolAlice.sessions v) ∧
      (∀ e : String × Session, e ∈ o'.sessions ↔ e ∈ poolAlice.sessions ∧ e.1 ≠ "alice") :=
  ⟨reachable_poolAlice, by decide,
    release_frees_slot poolAlice "alice" aliceSession reachable_poolAlice (by decide)⟩

/-- C9. `Release` undoes `Claim`: in a reachable state `o` where `u` has no lease
and some slot is available, `Claim(u)` followed by `Release(u)` both succeed and
give a state with the session table of `o` and the same available slots as `o`
(hence the same count of unavailable slots); and a following `Claim(v)` by
another user `v` without a lease is assigned the slot that `u` had been given. -/
theorem release_inverts_claim (o : Orchestrator) (u : String) (clk : ClaimClock)
    (h : Reachable o) (hu : sessionsGet o.sessions u = none)
    (hav : ∃ g ∈ o.gpus, g.Available = true) :
    ∃ (o₁ : Orchestrator) (s : Session) (o₂ : Orchestrator),
      Claim o u clk = (o₁, some s, none) ∧
      Release o₁ u = some (o₂, none) ∧
      o₂.sessions = o.sessions ∧
      o₂.gpus.map (fun g => g.Available) = o.gpus.map (fun g => g.Available) ∧
      unavailableCount o₂.gpus = unavailableCount o.gpus ∧
      ∀ (v : String) (clk' : ClaimClock), v ≠ u → sessionsGet o.sessions v = none →
        ∃ (o₃ : Orchestrator) (s' : Session),
          Claim o₂ v clk' = (o₃, some s', none) ∧ s'.GPUID = s.GPUID := by
  have hinv := inv_reachable o h
  rcases claimScan_spec u clk.sessionStart o.gpus with ⟨_, hall⟩ | ⟨i, g, hg, ha, hlt, _⟩
  · obtain ⟨g, hgm, hga⟩ := hav
    rw [hall g hgm] at hga
    cases hga
  · have hid : g.ID = (i : Int) := hinv.ids i g hg
    obtain ⟨s, hsdef⟩ : ∃ s, s = newSession u clk (markClaimed u clk.sessionStart g) := ⟨_, rfl⟩
    obtain ⟨o₁, ho₁⟩ : ∃ o₁ : Orchestrator, o₁ =
        { o with
          gpus := updateAt (markClaimed u clk.sessionStart) o.gpus i
          sessions := o.sessions ++ [(u, s)] } := ⟨_, rfl⟩
    have hc : Claim o u clk = (o₁, some s, none) := by
      rw [ho₁, hsdef]
      exact claim_of_free o u clk hu i g hg ha hlt
    have hg₁ : o₁.gpus = updateAt (markClaimed u clk.sessionStart) o.gpus i := by rw [ho₁]
    have hs₁ : o₁.sessions = o.sessions ++ [(u, s)] := by rw [ho₁]
    have hsid : s.GPUID = (i : Int) := by rw [hsdef]; exact hid
    have hget₁ : sessionsGet o₁.sessions u = some s := by
      rw [hs₁, sessionsGet_append_entry _ _ _ _ hu, if_pos rfl]
    have hslot₁ : slotAt o₁.gpus s.GPUID = some (markClaimed u clk.sessionStart g) := by
      rw [hg₁, hsid, slotAt_natCast, updateAt_getElem?, if_pos rfl, hg]
      rfl
    have hr := release_of_slot o₁ u s _ hget₁ hslot₁
    have hg₂ : (freeLease markReleased o₁ u s).gpus =
        updateAt markReleased (updateAt (markClaimed u clk.sessionStart) o.gpus i) i := by
      show updateAt markReleased o₁.gpus s.GPUID.toNat = _
      rw [hg₁, hsid, Int.toNat_ofNat]
    have hs₂ : (freeLease markReleased o₁ u s).sessions = o.sessions := by
      show sessionsDelete o₁.sessions u = _
      rw [hs₁]
      exact sessionsDelete_append_self o.sessions u s hu
    have hav₂ : (freeLease markReleased o₁ u s).gpus.map (fun g => g.Available) =
        o.gpus.map (fun g => g.Available) := by
      rw [hg₂]
      exact available_updateAt_updateAt _ _ o.gpus i g hg (by rw [ha]; rfl)
    refine ⟨o₁, s, _, hc, hr, hs₂, hav₂, unavailableCount_eq_of_available _ _ hav₂, ?_⟩
    intro v clk' _ hv
    have hv₂ : sessionsGet (freeLease markReleased o₁ u s).sessions v = none := by
      rw [hs₂]
      exact hv
    have hgi₂ : (freeLease markReleased o₁ u s).gpus[i]? =
        some (markReleased (markClaimed u clk.sessionStart g)) := by
      rw [hg₂]
      simp only [updateAt_getElem?, if_true, hg]
      rfl
    have hlt₂ : ∀ (j : Nat) (g' : GPU), j < i →
        (freeLease markReleased o₁ u s).gpus[j]? = some g' → g'.Available = false := by
      intro j g' hj hj'
      have hne : j ≠ i := by omega
      rw [hg₂] at hj'
      simp only [updateAt_getElem?, if_neg hne] at hj'
      exact hlt j g' hj hj'
    refine ⟨_, _, claim_of_free _ v clk' hv₂ i _ hgi₂ rfl hlt₂, ?_⟩
    rw [hsdef]
    rfl

/-- Witness for C9: `alice` claims and releases on the fresh pool `pool2`. -/
theorem release_inverts_claim_witness :
    Reachable pool2 ∧ sessionsGet pool2.sessions "alice" = none ∧
    (∃ g ∈ pool2.gpus, g.Available = true) ∧
    ∃ (o₁ : Orchestrator) (s : Session) (o₂ : Orchestrator),
      Claim pool2 "alice" clockA = (o₁, some s, none) ∧
      Release o₁ "alice" = some (o₂, none) ∧
      o₂.sessions = pool2.sessions ∧
      o₂.gpus.map (fun g => g.Available) = pool2.gpus.map (fun g => g.Available) ∧
      unavailableCount o₂.gpus = unavailableCount pool2.gpus ∧
      ∀ (v : String) (clk' : ClaimClock), v ≠ "alice" → sessionsGet pool2.sessions v = none →
        ∃ (o₃ : Orchestrator) (s' : Session),
          Claim o₂ v clk' = (o₃, some s', none) ∧ s'.GPUID = s.GPUID :=
  ⟨reachable_pool2, by decide,
    ⟨{ ID := 0, Available := true, UserID := "", SessionStart := 0, Port := 47984 },
      by decide, rfl⟩,
    release_inverts_claim pool2 "alice" clockA reachable_pool2 (by decide)
      ⟨{ ID := 0, Available := true, UserID := "", SessionStart := 0, Port := 47984 },
        by decide, rfl⟩⟩

/-- The effect of the sweep in a reachable state, with the age of a lease written
as the code computes it, `now.Sub(StartedAt)`. -/
theorem cleanup_expires_sub (o : Orchestrator) (now : Time) (order : List (String × Session))
    (h : Reachable o) (hp : order.Perm o.sessions) :
    ∃ o' : Orchestrator,
      CleanupExpiredIn order now o = some o' ∧ CleanupExpired now o = some o' ∧
      o'.sessions =
        o.sessions.filter (fun e => decide (Time.Sub now e.2.StartedAt ≤ o.timeout)) ∧
      (∀ e ∈ o.sessions, Time.Sub now e.2.StartedAt > o.timeout →
        e ∉ o'.sessions ∧ sessionsGet o'.sessions e.1 = none ∧
        (∃ g, slotAt o'.gpus e.2.GPUID = some g ∧ g.Available = true) ∧
        ∀ (v : String) (clk : ClaimClock), sessionsGet o'.sessions v = none →
          ∃ (o'' : Orchestrator) (s : Session),
            Claim o' v clk = (o'', some s, none) ∧ s.GPUID ≤ e.2.GPUID ∧
            ((∀ g' ∈ o'.gpus, g'.ID < e.2.GPUID → g'.Available = false) →
              s.GPUID = e.2.GPUID)) ∧
      (∀ e ∈ o.sessions, Time.Sub now e.2.StartedAt ≤ o.timeout →
        e ∈ o'.sessions ∧ sessionsGet o'.sessions e.1 = some e.2 ∧
        slotAt o'.gpus e.2.GPUID = slotAt o.gpus e.2.GPUID ∧
        ∃ g, slotAt o'.gpus e.2.GPUID = some g ∧ g.Available = false ∧ g.UserID = e.1) := by
  have hinv := inv_reachable o h
  obtain ⟨o', hc, hinv', _, _, hs, hg⟩ := cleanupExpiredIn_perm now order o hinv hp
  have hex : ∀ e : String × Session,
      expired now o.timeout e.2 = true ↔ Time.Sub now e.2.StartedAt > o.timeout := by
    intro e
    simp [expired]
  have hs' : o'.sessions =
      o.sessions.filter (fun e => decide (Time.Sub now e.2.StartedAt ≤ o.timeout)) := by
    rw [hs]
    apply List.filter_congr
    intro e _
    by_cases hle : Time.Sub now e.2.StartedAt ≤ o.timeout
    · have hlt : ¬ o.timeout < Time.Sub now e.2.StartedAt := by omega
      simp [expired, hle, hlt]
    · have hlt : o.timeout < Time.Sub now e.2.StartedAt := by omega
      simp [expired, hle, hlt]
  refine ⟨o', hc, (cleanupExpiredIn_order_irrelevant now order o hinv hp).symm.trans hc,
    hs', ?_, ?_⟩
  · intro e he hexp
    obtain ⟨_, g, hslot, _, _⟩ := hinv.lease e.1 e.2 he
    obtain ⟨h0, h1, hget⟩ := slotAt_eq_some _ _ _ hslot
    have hnot : e ∉ o'.sessions := by
      rw [hs']
      intro hm
      have := (List.mem_filter.mp hm).2
      simp only [decide_eq_true_eq] at this
      omega
    have hnone : sessionsGet o'.sessions e.1 = none := by
      cases hge : sessionsGet o'.sessions e.1 with
      | none => rfl
      | some s' =>
        exfalso
        have hm' := mem_of_sessionsGet _ _ _ hge
        have hm'' : (e.1, s') ∈ o.sessions := by
          rw [hs'] at hm'
          exact (List.mem_filter.mp hm').1
        have := entry_eq_of_key_eq _ hinv.keys (e.1, s') e hm'' he rfl
        rw [this] at hm'
        exact hnot hm'
    have hslot' : o'.gpus[e.2.GPUID.toNat]? = some (markExpired g) := by
      rw [(hg e.2.GPUID.toNat).1 ⟨e, he, (hex e).mpr hexp, by omega⟩, hget]
      rfl
    refine ⟨hnot, hnone, ⟨markExpired g, ?_, rfl⟩, ?_⟩
    · simp only [slotAt, h0, if_true]
      exact hslot'
    · intro v clk hv
      rcases claimScan_spec v clk.sessionStart o'.gpus with ⟨_, hall⟩ | ⟨i, g₁, hg₁, ha₁, hlt₁, _⟩
      · have := hall _ (List.getElem?_mem hslot')
        cases this
      · refine ⟨_, _, claim_of_free o' v clk hv i g₁ hg₁ ha₁ hlt₁, ?_, ?_⟩
        · show g₁.ID ≤ e.2.GPUID
          rw [hinv'.ids i g₁ hg₁]
          by_contra hcon
          have := hlt₁ e.2.GPUID.toNat (markExpired g) (by omega) hslot'
          cases this
        · intro hlow
          show g₁.ID = e.2.GPUID
          have hi := hinv'.ids i g₁ hg₁
          have hle : g₁.ID ≤ e.2.GPUID := by
            rw [hi]
            by_contra hcon
            have := hlt₁ e.2.GPUID.toNat (markExpired g) (by omega) hslot'
            cases this
          by_contra hne
          have := hlow g₁ (List.getElem?_mem hg₁) (by omega)
          rw [ha₁] at this
          cases this
  · intro e he hfresh
    obtain ⟨_, g, hslot, hgav, hgu⟩ := hinv.lease e.1 e.2 he
    obtain ⟨h0, h1, hget⟩ := slotAt_eq_some _ _ _ hslot
    have hm : e ∈ o'.sessions := by
      rw [hs']
      exact List.mem_filter.mpr ⟨he, by simpa using hfresh⟩
    have hsame : o'.gpus[e.2.GPUID.toNat]? = o.gpus[e.2.GPUID.toNat]? := by
      apply (hg e.2.GPUID.toNat).2
      rintro ⟨e', he', hexp', hid'⟩
      obtain ⟨_, g', hslot', _, hgu'⟩ := hinv.lease e'.1 e'.2 he'
      have hidx : e'.2.GPUID = e.2.GPUID := by omega
      rw [hidx, hslot] at hslot'
      cases hslot'
      have := entry_eq_of_key_eq _ hinv.keys e' e he' he (hgu'.symm.trans hgu)
      rw [this] at hexp'
      have := (hex e).mp hexp'
      omega
    have hslot'' : slotAt o'.gpus e.2.GPUID = slotAt o.gpus e.2.GPUID := by
      simp only [slotAt, h0, if_true]
      exact hsame
    refine ⟨hm, sessionsGet_of_mem _ _ _ hinv'.keys hm, hslot'', g, ?_, hgav, hgu⟩
    rw [hslot'']
    exact hslot

/-- The test of line 121 agrees with the comparison of the exact difference
`now - StartedAt` against the timeout, for a timeout that is a `time.Duration`,
unless the timeout is the largest duration and the difference exceeds it. -/
theorem timeSub_gt_iff_exact (now t : Time) (timeout : Int) (ht : minDuration ≤ timeout)
    (hfit : timeout < maxDuration ∨ now - t ≤ maxDuration) :
    Time.Sub now t > timeout ↔ now - t > timeout := by
  have hsub : ∀ d : Int, (timeout < maxDuration ∨ d ≤ maxDuration) →
      ((if d > maxDuration then maxDuration
        else if d < minDuration then minDuration else d) > timeout ↔ d > timeout) := by
    intro d hd
    by_cases h1 : d > maxDuration
    · rw [if_pos h1]
      constructor <;> intro _ <;> omega
    · rw [if_neg h1]
      by_cases h2 : d < minDuration
      · rw [if_pos h2]
        constructor <;> intro _ <;> omega
      · rw [if_neg h2]
  exact hsub (now - t) hfit

/-- C10. Expiry: in a reachable state whose timeout is a `time.Duration`, for
every clock reading `now` and every order in which the sweep visits the session
table, `CleanupExpired` returns and removes from the session table exactly the
leases with `now - StartedAt > timeout`; the slot of each removed lease becomes
available, so that a following `Claim` by a user without a lease succeeds and
is assigned that slot unless a slot of smaller index is available; every lease
with `now - StartedAt <= timeout` stays in the table unchanged and its slot is
unchanged, unavailable and held by the same user.  The differences are exact
integer differences of the clock readings; the one case left out is a timeout
equal to the largest duration together with a lease older than it. -/
theorem cleanup_expires (o : Orchestrator) (now : Time) (order : List (String × Session))
    (h : Reachable o) (hp : order.Perm o.sessions) (ht : minDuration ≤ o.timeout)
    (hfit : o.timeout < maxDuration ∨ ∀ e ∈ o.sessions, now - e.2.StartedAt ≤ maxDuration) :
    ∃ o' : Orchestrator,
      CleanupExpiredIn order now o = some o' ∧ CleanupExpired now o = some o' ∧
      o'.sessions =
        o.sessions.filter (fun e => decide (now - e.2.StartedAt ≤ o.timeout)) ∧
      (∀ e ∈ o.sessions, now - e.2.StartedAt > o.timeout →
        e ∉ o'.sessions ∧ sessionsGet o'.sessions e.1 = none ∧
        (∃ g, slotAt o'.gpus e.2.GPUID = some g ∧ g.Available = true) ∧
        ∀ (v : String) (clk : ClaimClock), sessionsGet o'.sessions v = none →
          ∃ (o'' : Orchestrator) (s : Session),
            Claim o' v clk = (o'', some s, none) ∧ s.GPUID ≤ e.2.GPUID ∧
            ((∀ g' ∈ o'.gpus, g'.ID < e.2.GPUID → g'.Available = false) →
              s.GPUID = e.2.GPUID)) ∧
      (∀ e ∈ o.sessions, now - e.2.StartedAt ≤ o.timeout →
        e ∈ o'.sessions ∧ sessionsGet o'.sessions e.1 = some e.2 ∧
        slotAt o'.gpus e.2.GPUID = slotAt o.gpus e.2.GPUID ∧
        ∃ g, slotAt o'.gpus e.2.GPUID = some g ∧ g.Available = false ∧ g.UserID = e.1) := by
  have hiff : ∀ e ∈ o.sessions,
      (Time.Sub now e.2.StartedAt > o.timeout ↔ now - e.2.StartedAt > o.timeout) := by
    intro e he
    apply timeSub_gt_iff_exact now e.2.StartedAt o.timeout ht
    rcases hfit with hlt | hage
    · exact Or.inl hlt
    · exact Or.inr (hage e he)
  obtain ⟨o', hc, hc', hs, hexp, hfresh⟩ := cleanup_expires_sub o now order h hp
  refine ⟨o', hc, hc', ?_, ?_, ?_⟩
  · rw [hs]
    apply List.filter_congr
    intro e he
    have := hiff e he
    by_cases hle : now - e.2.StartedAt ≤ o.timeout
    · have hle' : Time.Sub now e.2.StartedAt ≤ o.timeout :=
        not_lt.mp (fun hcon => absurd (this.mp hcon) (not_lt.mpr hle))
      simp [hle, hle']
    · have hle' : ¬ Time.Sub now e.2.StartedAt ≤ o.timeout :=
        fun hcon => hle (not_lt.mp (fun hgt => absurd (this.mpr hgt) (not_lt.mpr hcon)))
      simp [hle, hle']
  · intro e he hgt
    exact hexp e he ((hiff e he).mpr hgt)
  · intro e he hle
    exact hfresh e he
      (not_lt.mp (fun hcon => absurd ((hiff e he).mp hcon) (not_lt.mpr hle)))

/-- Witness for C10: in `poolFull` with the clock at 14400000001002 ns the lease of
`alice` (started at 1001) is older than the timeout of 4 h and the lease of `bob`
(started at 5002) is not. -/
theorem cleanup_expires_witness :
    Reachable poolFull ∧ poolFull.sessions.Perm poolFull.sessions ∧
    minDuration ≤ poolFull.timeout ∧
    (poolFull.timeout < maxDuration ∨
      ∀ e ∈ poolFull.sessions, 14400000001002 - e.2.StartedAt ≤ maxDuration) ∧
    ∃ o' : Orchestrator,
      CleanupExpiredIn poolFull.sessions 14400000001002 poolFull = some o' ∧
      CleanupExpired 14400000001002 poolFull = some o' ∧
      o'.sessions =
        poolFull.sessions.filter
          (fun e => decide (14400000001002 - e.2.StartedAt ≤ poolFull.timeout)) ∧
      (∀ e ∈ poolFull.sessions, 14400000001002 - e.2.StartedAt > poolFull.timeout →
        e ∉ o'.sessions ∧ sessionsGet o'.sessions e.1 = none ∧
        (∃ g, slotAt o'.gpus e.2.GPUID = some g ∧ g.Available = true) ∧
        ∀ (v : String) (clk : ClaimClock), sessionsGet o'.sessions v = none →
          ∃ (o'' : Orchestrator) (s : Session),
            Claim o' v clk = (o'', some s, none) ∧ s.GPUID ≤ e.2.GPUID ∧
            ((∀ g' ∈ o'.gpus, g'.ID < e.2.GPUID → g'.Available = false) →
              s.GPUID = e.2.GPUID)) ∧
      (∀ e ∈ poolFull.sessions, 14400000001002 - e.2.StartedAt ≤ poolFull.timeout →
        e ∈ o'.sessions ∧ sessionsGet o'.sessions e.1 = some e.2 ∧
        slotAt o'.gpus e.2.GPUID = slotAt poolFull.gpus e.2.GPUID ∧
        ∃ g, slotAt o'.gpus e.2.GPUID = some g ∧ g.Available = false ∧ g.UserID = e.1) :=
  ⟨reachable_poolFull, List.Perm.refl _, by decide, Or.inl (by decide),
    cleanup_expires poolFull 14400000001002 poolFull.sessions reachable_poolFull
      (List.Perm.refl _) (by decide) (Or.inl (by decide))⟩

/-! ## The sweep and `Release` -/

theorem dropSessionStart_updateAt (f f' : GPU → GPU)
    (hf : ∀ g g', dropSessionStart g = dropSessionStart g' →
      dropSessionStart (f g) = dropSessionStart (f' g'))
    (l l' : List GPU) (n : Nat) (h : l.map dropSessionStart = l'.map dropSessionStart) :
    (updateAt f l n).map dropSessionStart = (updateAt f' l' n).map dropSessionStart := by
  apply List.ext_getElem?
  intro i
  have hi := congrArg (fun x => x[i]?) h
  simp only [List.getElem?_map] at hi
  simp only [List.getElem?_map, updateAt_getElem?]
  by_cases hin : i = n
  · rw [if_pos hin, if_pos hin]
    cases h1 : l[i]? with
    | none =>
      cases h2 : l'[i]? with
      | none => rfl
      | some g' => rw [h1, h2] at hi; cases hi
    | some g =>
      cases h2 : l'[i]? with
      | none => rw [h1, h2] at hi; cases hi
      | some g' =>
        rw [h1, h2] at hi
        simp only [Option.map_some', Option.some.injEq] at hi ⊢
        exact hf g g' hi
  · rw [if_neg hin, if_neg hin]
    exact hi

theorem releaseEach_cons (u : String) (rest : List String) (o o' : Orchestrator)
    (err : Option HTTPError) (h : Release o u = some (o', err)) :
    releaseEach (u :: rest) o = releaseEach rest o' := by
  simp [releaseEach, h]

/-- The sweep over the entries `l` and `Release` called for the expired users of
`l`, started in states that agree up to the start timestamps of the slots, both
return, in states that again agree up to those timestamps. -/
theorem cleanup_releaseEach_agree (now : Time) (l : List (String × Session)) :
    ∀ (o₁ o₂ : Orchestrator), Inv o₁ → Inv o₂ → o₁.sessions = o₂.sessions →
      o₁.gpus.map dropSessionStart = o₂.gpus.map dropSessionStart →
      o₁.timeout = o₂.timeout →
      (∀ e ∈ l, e ∈ o₁.sessions) → (sessionKeys l).Nodup →
      ∃ a b : Orchestrator, CleanupExpiredIn l now o₁ = some a ∧
        releaseEach ((l.filter (fun e => expired now o₁.timeout e.2)).map Prod.fst) o₂ =
          some b ∧
        a.sessions = b.sessions ∧
        a.gpus.map dropSessionStart = b.gpus.map dropSessionStart := by
  induction l with
  | nil =>
    intro o₁ o₂ _ _ hs hg _ _ _
    exact ⟨o₁, o₂, rfl, rfl, hs, hg⟩
  | cons e rest ih =>
    intro o₁ o₂ hinv₁ hinv₂ hs hg ht hsub hnd
    have hem : e ∈ o₁.sessions := hsub e (List.mem_cons_self _ _)
    simp only [sessionKeys, List.map_cons, List.nodup_cons] at hnd
    cases hex : expired now o₁.timeout e.2 with
    | false =>
      obtain ⟨a, b, ha, hb, hab⟩ := ih o₁ o₂ hinv₁ hinv₂ hs hg ht
        (fun x hx => hsub x (List.mem_cons_of_mem _ hx)) hnd.2
      refine ⟨a, b, ?_, ?_, hab⟩
      · rw [cleanupExpiredIn_cons, cleanupStep_of_fresh now o₁ e hex]
        exact ha
      · rw [List.filter_cons, hex]
        exact hb
    | true =>
      obtain ⟨_, g, hslot, _, _⟩ := hinv₁.lease e.1 e.2 hem
      have hem₂ : (e.1, e.2) ∈ o₂.sessions := by
        rw [← hs]
        exact hem
      have hget₂ : sessionsGet o₂.sessions e.1 = some e.2 :=
        sessionsGet_of_mem _ _ _ hinv₂.keys hem₂
      have hinv₁' : Inv (freeLease markExpired o₁ e.1 e.2) :=
        inv_freeLease markExpired o₁ e.1 e.2 (fun g => ⟨rfl, rfl⟩) hinv₁ hem
      have hinv₂' : Inv (freeLease markReleased o₂ e.1 e.2) :=
        inv_freeLease markReleased o₂ e.1 e.2 (fun g => ⟨rfl, rfl⟩) hinv₂ hem₂
      have hs' : (freeLease markExpired o₁ e.1 e.2).sessions =
          (freeLease markReleased o₂ e.1 e.2).sessions := by
        show sessionsDelete o₁.sessions e.1 = sessionsDelete o₂.sessions e.1
        rw [hs]
      have hg' : (freeLease markExpired o₁ e.1 e.2).gpus.map dropSessionStart =
          (freeLease markReleased o₂ e.1 e.2).gpus.map dropSessionStart := by
        apply dropSessionStart_updateAt markExpired markReleased _ _ _ _ hg
        intro g₁ g₂ h12
        simp only [dropSessionStart, GPU.mk.injEq] at h12
        simp only [dropSessionStart, markExpired, markReleased, GPU.mk.injEq]
        exact ⟨h12.1, trivial, trivial, trivial, h12.2.2.2.2⟩
      have hsub' : ∀ x ∈ rest, x ∈ (freeLease markExpired o₁ e.1 e.2).sessions := by
        intro x hx
        refine (mem_sessionsDelete _ _ _).mpr ⟨hsub x (List.mem_cons_of_mem _ hx), ?_⟩
        intro hk
        apply hnd.1
        rw [← hk]
        exact List.mem_map_of_mem Prod.fst hx
      obtain ⟨a, b, ha, hb, hab⟩ := ih _ _ hinv₁' hinv₂' hs' hg' ht hsub' hnd.2
      refine ⟨a, b, ?_, ?_, hab⟩
      · rw [cleanupExpiredIn_cons, cleanupStep_of_expired now o₁ e g hex hslot]
        exact ha
      · rw [List.filter_cons, hex]
        simp only [if_true, List.map_cons]
        rw [releaseEach_cons e.1 _ o₂ _ none (release_of_lease o₂ e.1 e.2 hinv₂ hget₂)]
        exact hb

/-- In a reachable state the sweep and `Release` called for each expired user
both return, with the same session table and slot tables that differ at most
in the start timestamps of the slots. -/
theorem cleanup_eq_releaseEach_upto_sessionStart (o : Orchestrator) (h : Reachable o)
    (now : Time) :
    ∃ a b : Orchestrator, CleanupExpired now o = some a ∧
      releaseEach (expiredUsers now o) o = some b ∧
      a.sessions = b.sessions ∧
      a.gpus.map dropSessionStart = b.gpus.map dropSessionStart := by
  have hinv := inv_reachable o h
  exact cleanup_releaseEach_agree now o.sessions o o hinv hinv rfl rfl rfl
    (fun _ he => he) hinv.keys

/-- C11, evaluated on `poolAlice` with the clock at 14400000001002 ns, when the
lease of `alice` (started at 1001, slot marked at 1000) is older than the
timeout: `CleanupExpired` frees slot 0 but leaves its `SessionStart` at 1000,
whereas `Release("alice")` resets it to the zero time; the two results differ. -/
theorem cleanup_keeps_sessionStart :
    expiredUsers 14400000001002 poolAlice = ["alice"] ∧
    CleanupExpired 14400000001002 poolAlice = some
      { gpus :=
          [ { ID := 0, Available := true, UserID := "", SessionStart := 1000, Port := 47984 },
            { ID := 1, Available := true, UserID := "", SessionStart := 0, Port := 47994 } ]
        sessions := []
        basePort := 47984
        timeout := 14400000000000 } ∧
    releaseEach (expiredUsers 14400000001002 poolAlice) poolAlice = some
      { gpus :=
          [ { ID := 0, Available := true, UserID := "", SessionStart := zeroTime, Port := 47984 },
            { ID := 1, Available := true, UserID := "", SessionStart := 0, Port := 47994 } ]
        sessions := []
        basePort := 47984
        timeout := 14400000000000 } ∧
    CleanupExpired 14400000001002 poolAlice ≠
      releaseEach (expiredUsers 14400000001002 poolAlice) poolAlice := by
  refine ⟨by decide, by decide, by decide, by decide⟩

/-! ## Holders and availability -/

theorem mem_updateAt (f : GPU → GPU) (l : List GPU) (n : Nat) (g' : GPU)
    (h : g' ∈ updateAt f l n) : g' ∈ l ∨ ∃ g ∈ l, g' = f g := by
  obtain ⟨j, hj⟩ := List.mem_iff_getElem?.mp h
  rw [updateAt_getElem?] at hj
  by_cases hjn : j = n
  · rw [if_pos hjn] at hj
    cases hl : l[j]? with
    | none => rw [hl] at hj; cases hj
    | some g =>
      rw [hl] at hj
      simp only [Option.map_some', Option.some.injEq] at hj
      exact Or.inr ⟨g, List.getElem?_mem hl, hj.symm⟩
  · rw [if_neg hjn] at hj
    exact Or.inl (List.getElem?_mem hj)

theorem guardedStep_step (o o' : Orchestrator) (h : GuardedStep o o') : Step o o' := by
  cases h with
  | claim u clk _ => exact Step.claim o u clk
  | release _ u err hr => exact Step.release o o' u err hr
  | cleanup _ order now hp hc => exact Step.cleanup o o' order now hp hc

theorem guardedReachableFrom_reachableFrom (o₀ o : Orchestrator)
    (h : GuardedReachableFrom o₀ o) : ReachableFrom o₀ o := by
  induction h with
  | refl => exact ReachableFrom.refl
  | step o1 o2 _ hs ih => exact ReachableFrom.step o1 o2 ih (guardedStep_step o1 o2 hs)

theorem guardedReachable_reachable (o : Orchestrator) (h : GuardedReachable o) :
    Reachable o := by
  obtain ⟨n, bp, t, o₀, hn, hr⟩ := h
  exact ⟨n, bp, t, o₀, hn, guardedReachableFrom_reachableFrom o₀ o hr⟩

theorem holderInv_new (gpuCount basePort timeout : Int) (o : Orchestrator)
    (h : NewOrchestrator gpuCount basePort timeout = some o) : HolderInv o := by
  obtain ⟨_, hg, hs, _, _⟩ := newOrchestrator_eq_some gpuCount basePort timeout o h
  constructor
  · intro g hgm _
    obtain ⟨j, hj⟩ := List.mem_iff_getElem?.mp hgm
    rw [hg] at hj
    obtain ⟨_, rfl⟩ := newOrchestrator_getElem? _ _ _ _ hj
    rfl
  · intro e he
    rw [hs] at he
    cases he

theorem holderInv_freeLease (f : GPU → GPU) (o : Orchestrator) (u : String) (s : Session)
    (hf : ∀ g, (f g).UserID = "") (h : HolderInv o) : HolderInv (freeLease f o u s) := by
  constructor
  · intro g hgm hav
    rcases mem_updateAt f o.gpus _ g hgm with hold | ⟨g₀, _, rfl⟩
    · exact h.free g hold hav
    · exact hf g₀
  · intro e he
    exact h.named e ((mem_sessionsDelete _ _ _).mp he).1

theorem holderInv_step (o o' : Orchestrator) (hinv : Inv o) (h : HolderInv o)
    (hs : GuardedStep o o') : HolderInv o' := by
  cases hs with
  | claim u clk hu =>
    cases hget : sessionsGet o.sessions u with
    | some s => rw [claim_of_lease o u clk s hget]; exact h
    | none =>
      rcases claimScan_spec u clk.sessionStart o.gpus with ⟨_, hall⟩ | ⟨i, g, hg, ha, hlt, _⟩
      · rw [claim_of_full o u clk hget hall]; exact h
      · rw [claim_of_free o u clk hget i g hg ha hlt]
        constructor
        · intro g' hgm hav
          rcases mem_updateAt _ o.gpus _ g' hgm with hold | ⟨g₀, _, rfl⟩
          · exact h.free g' hold hav
          · cases hav
        · intro e he
          rcases List.mem_append.mp he with hold | hnew
          · exact h.named e hold
          · rw [List.mem_singleton] at hnew
            rw [hnew]
            exact hu
  | release _ u err hr =>
    cases hget : sessionsGet o.sessions u with
    | none =>
      rw [release_of_absent o u hget] at hr
      cases hr
      exact h
    | some s =>
      rw [release_of_lease o u s hinv hget] at hr
      cases hr
      exact holderInv_freeLease markReleased o u s (fun _ => rfl) h
  | cleanup _ order now hp hc =>
    obtain ⟨o'', hc', _, _, _, hsess, hg⟩ := cleanupExpiredIn_perm now order o hinv hp
    rw [hc] at hc'
    cases hc'
    constructor
    · intro g hgm hav
      obtain ⟨j, hj⟩ := List.mem_iff_getElem?.mp hgm
      by_cases hex : ∃ e ∈ o.sessions, expired now o.timeout e.2 = true ∧ e.2.GPUID = (j : Int)
      · rw [(hg j).1 hex] at hj
        cases hl : o.gpus[j]? with
        | none => rw [hl] at hj; cases hj
        | some g₀ =>
          rw [hl] at hj
          simp only [Option.map_some', Option.some.injEq] at hj
          rw [← hj]
          rfl
      · rw [(hg j).2 hex] at hj
        exact h.free g (List.getElem?_mem hj) hav
    · intro e he
      rw [hsess] at he
      exact h.named e (List.mem_filter.mp he).1

theorem holderInv_guardedReachable (o : Orchestrator) (h : GuardedReachable o) :
    HolderInv o := by
  obtain ⟨n, bp, t, o₀, hn, hr⟩ := h
  have hinv₀ := inv_new n bp t o₀ hn
  induction hr with
  | refl => exact holderInv_new n bp t o₀ hn
  | step o1 o2 hr1 hs ih =>
    exact holderInv_step o1 o2
      (inv_reachableFrom o₀ o1 hinv₀ (guardedReachableFrom_reachableFrom o₀ o1 hr1)) ih hs

theorem reachable_poolEmptyUser : Reachable poolEmptyUser :=
  ⟨2, 47984, 14400000000000, pool2, newOrchestrator_pool2,
    ReachableFrom.step pool2 poolEmptyUser ReachableFrom.refl (Step.claim pool2 "" clockA)⟩

theorem guardedReachable_poolAlice : GuardedReachable poolAlice :=
  ⟨2, 47984, 14400000000000, pool2, newOrchestrator_pool2,
    GuardedReachableFrom.step pool2 poolAlice GuardedReachableFrom.refl
      (GuardedStep.claim pool2 "alice" clockA (by decide))⟩

/-- C12 as stated fails: after `Claim("")` on a fresh pool, a reachable state, slot
0 has `Available == false` and an empty `UserID`. -/
theorem slot_invariant_fails_for_empty_user :
    ¬ ∀ o : Orchestrator, Reachable o →
      ∀ g ∈ o.gpus, (g.Available = false ↔ g.UserID ≠ "") := by
  intro h
  have h0 := h poolEmptyUser reachable_poolEmptyUser
    { ID := 0, Available := false, UserID := "", SessionStart := 1000, Port := 47984 }
    (by decide)
  exact absurd rfl (h0.mp rfl)

/-- C12, amended. Slot invariant: in every state reachable from `NewOrchestrator`
by `Claim`, `Release` and `CleanupExpired` calls in which every `Claim` is given a
non-empty user identifier, every slot has `Available == false` if and only if
its `UserID` is non-empty. -/
theorem slot_invariant (o : Orchestrator) (h : GuardedReachable o) :
    ∀ g ∈ o.gpus, (g.Available = false ↔ g.UserID ≠ "") := by
  have hinv := inv_reachable o (guardedReachable_reachable o h)
  have hh := holderInv_guardedReachable o h
  intro g hgm
  constructor
  · intro hav
    obtain ⟨j, hj⟩ := List.mem_iff_getElem?.mp hgm
    obtain ⟨s, hm, _⟩ := hinv.held j g hj hav
    exact hh.named (g.UserID, s) hm
  · intro hne
    cases hav : g.Available with
    | false => rfl
    | true => exact absurd (hh.free g hgm hav) hne

/-- Witness for C12: the pool of two slots after `Claim("alice")`. -/
theorem slot_invariant_witness :
    GuardedReachable poolAlice ∧
    ∀ g ∈ poolAlice.gpus, (g.Available = false ↔ g.UserID ≠ "") :=
  ⟨guardedReachable_poolAlice, slot_invariant poolAlice guardedReachable_poolAlice⟩

/-! ## Construction -/

theorem wrap64_add_wrap64 (a b : Int) : wrap64 (a + wrap64 b) = wrap64 (a + b) := by
  unfold wrap64
  omega

theorem wrap64_of_inRange (x : Int) (h₁ : -(2 : Int) ^ 63 ≤ x) (h₂ : x < 2 ^ 63) :
    wrap64 x = x := by
  unfold wrap64
  omega

theorem newGPU_port (basePort : Int) (i : Nat) :
    (newGPU basePort i).Port = wrap64 (basePort + 10 * (i : Int)) := by
  show wrap64 (basePort + wrap64 ((i : Int) * 10)) = _
  rw [wrap64_add_wrap64, Int.mul_comm]

theorem fits_iff (count : Int) : count * sizeofGPU ≤ maxAlloc ↔ count ≤ 2 ^ 42 := by
  unfold sizeofGPU maxAlloc
  omega

theorem newOrchestrator_poolMaxPort :
    NewOrchestrator 2 9223372036854775807 14400000000000 = some poolMaxPort := by
  decide

/-- C13 as stated fails: `NewOrchestrator(2, math.MaxInt64, 4h)` returns a pool whose
slot 1 has `Port = -9223372036854775799`, not `basePort + 10`; and
`NewOrchestrator(2^42 + 1, 47984, 4h)` returns no pool, `make` panics. -/
theorem port_wraps_around :
    (∃ (o : Orchestrator) (g : GPU),
      NewOrchestrator 2 9223372036854775807 14400000000000 = some o ∧
      o.gpus[1]? = some g ∧ g.Port = -9223372036854775799 ∧
      g.Port ≠ 9223372036854775807 + 10 * 1) ∧
    NewOrchestrator 4398046511105 47984 14400000000000 = none :=
  ⟨⟨poolMaxPort, _, newOrchestrator_poolMaxPort, rfl, rfl, by decide⟩, by decide⟩

/-- C13, amended. Construction: for every `count` with `0 <= count` that `make`
accepts (`count * 64` bytes within the runtime's limit of 2^48, that is
`count <= 2^42`), every base port and timeout,
`NewOrchestrator(count, basePort, timeout)` returns a pool with exactly `count`
slots and an empty session table, storing `basePort` and `timeout`; the slot at
index `i` has `ID = i`, `Available == true`, an empty holder, the zero start
timestamp and `Port = basePort + 10*i` in 64-bit wrap-around arithmetic, which
is the exact sum whenever that sum is in the range of `int`. -/
theorem newOrchestrator_spec (count basePort timeout : Int) (hc : 0 ≤ count)
    (hm : count * sizeofGPU ≤ maxAlloc) :
    ∃ o : Orchestrator,
      NewOrchestrator count basePort timeout = some o ∧
      (o.gpus.length : Int) = count ∧ o.sessions = [] ∧
      o.basePort = basePort ∧ o.timeout = timeout ∧
      ∀ i : Nat, (i : Int) < count →
        o.gpus[i]? = some
          { ID := (i : Int), Available := true, UserID := "", SessionStart := zeroTime,
            Port := wrap64 (basePort + 10 * (i : Int)) } ∧
        (-(2 : Int) ^ 63 ≤ basePort + 10 * (i : Int) → basePort + 10 * (i : Int) < 2 ^ 63 →
          wrap64 (basePort + 10 * (i : Int)) = basePort + 10 * (i : Int)) := by
  refine ⟨_, newOrchestrator_of_fits count basePort timeout hc hm, ?_, rfl, rfl, rfl, ?_⟩
  · simp only [List.length_map, List.length_range]
    omega
  · intro i hi
    refine ⟨?_, wrap64_of_inRange _⟩
    have hlt : i < count.toNat := by omega
    show ((List.range count.toNat).map (newGPU basePort))[i]? = _
    rw [List.getElem?_map, List.getElem?_range hlt, Option.map_some', ← newGPU_port]
    rfl

/-- Witness for C13: a pool of two slots at base port 47984. -/
theorem newOrchestrator_spec_witness :
    (0 : Int) ≤ 2 ∧ (2 : Int) * sizeofGPU ≤ maxAlloc ∧
    ∃ o : Orchestrator,
      NewOrchestrator 2 47984 14400000000000 = some o ∧
      (o.gpus.length : Int) = 2 ∧ o.sessions = [] ∧
      o.basePort = 47984 ∧ o.timeout = 14400000000000 ∧
      ∀ i : Nat, (i : Int) < 2 →
        o.gpus[i]? = some
          { ID := (i : Int), Available := true, UserID := "", SessionStart := zeroTime,
            Port := wrap64 (47984 + 10 * (i : Int)) } ∧
        (-(2 : Int) ^ 63 ≤ 47984 + 10 * (i : Int) → 47984 + 10 * (i : Int) < 2 ^ 63 →
          wrap64 (47984 + 10 * (i : Int)) = 47984 + 10 * (i : Int)) :=
  ⟨by decide, by decide,
    newOrchestrator_spec 2 47984 14400000000000 (by decide) (by decide)⟩

/-- C14 as stated fails: `NewOrchestrator(-1, 47984, 4h)` panics, in
`make([]GPU, gpuCount)`, and so does `NewOrchestrator(2^42 + 1, 47984, 4h)`. -/
theorem newOrchestrator_negative_panics :
    NewOrchestrator (-1) 47984 14400000000000 = none ∧
    NewOrchestrator 4398046511105 47984 14400000000000 = none :=
  ⟨by decide, by decide⟩

/-- C14, amended. `NewOrchestrator(count, basePort, timeout)` returns without
failing exactly when `0 <= count` and `make` accepts `count` (`count * 64` bytes
within the runtime's limit of 2^48, that is `count <= 2^42`; zero included),
for every base port and timeout; what it returns is a ready pool, with `count`
slots, all available, an empty session table and the given base port and
timeout; for every other `count`, negative or larger, the call panics. -/
theorem newOrchestrator_returns_iff (count basePort timeout : Int) :
    ((∃ o : Orchestrator, NewOrchestrator count basePort timeout = some o) ↔
      (0 ≤ count ∧ count ≤ 2 ^ 42)) ∧
    (∀ o : Orchestrator, NewOrchestrator count basePort timeout = some o →
      Reachable o ∧ (o.gpus.length : Int) = count ∧
      (∀ g ∈ o.gpus, g.Available = true) ∧ o.sessions = [] ∧
      o.basePort = basePort ∧ o.timeout = timeout) ∧
    ((count < 0 ∨ 2 ^ 42 < count) → NewOrchestrator count basePort timeout = none) := by
  refine ⟨⟨?_, ?_⟩, ?_, ?_⟩
  · rintro ⟨o, ho⟩
    exact ⟨(newOrchestrator_eq_some count basePort timeout o ho).1,
      (fits_iff count).mp (newOrchestrator_eq_some_bound count basePort timeout o ho)⟩
  · rintro ⟨hc, hm⟩
    exact ⟨_, newOrchestrator_of_fits count basePort timeout hc ((fits_iff count).mpr hm)⟩
  · intro o ho
    obtain ⟨hc, hg, hs, hb, ht⟩ := newOrchestrator_eq_some count basePort timeout o ho
    refine ⟨⟨count, basePort, timeout, o, ho, ReachableFrom.refl⟩, ?_, ?_, hs, hb, ht⟩
    · rw [hg]
      simp only [List.length_map, List.length_range]
      omega
    · intro g hgm
      obtain ⟨j, hj⟩ := List.mem_iff_getElem?.mp hgm
      rw [hg] at hj
      obtain ⟨_, rfl⟩ := newOrchestrator_getElem? _ _ _ _ hj
      rfl
  · intro h
    apply newOrchestrator_of_unfit
    rcases h with h | h
    · exact Or.inl h
    · right
      have := (fits_iff count).not.mpr (by omega)
      omega

/-- Witness for C14: a pool of no slots. -/
theorem newOrchestrator_returns_iff_witness :
    ((0 : Int) ≤ 0 ∧ (0 : Int) ≤ 2 ^ 42) ∧
    ∃ o : Orchestrator, NewOrchestrator 0 47984 14400000000000 = some o :=
  ⟨by decide, (newOrchestrator_returns_iff 0 47984 14400000000000).1.mpr (by decide)⟩

/-! ## Leases copy the layout -/

theorem leaseLayout_step (o o' : Orchestrator) (hinv : Inv o)
    (hl : ∀ e ∈ o.sessions, (e.2.GPUID, e.2.Port) ∈ slotLayout o.gpus) (hs : Step o o') :
    ∀ e ∈ o'.sessions, (e.2.GPUID, e.2.Port) ∈ slotLayout o'.gpus := by
  rw [slotLayout_step o o' hs]
  cases hs with
  | claim u clk =>
    cases hget : sessionsGet o.sessions u with
    | some s => rw [claim_of_lease o u clk s hget]; exact hl
    | none =>
      rcases claimScan_spec u clk.sessionStart o.gpus with ⟨_, hall⟩ | ⟨i, g, hg, ha, hlt, _⟩
      · rw [claim_of_full o u clk hget hall]; exact hl
      · rw [claim_of_free o u clk hget i g hg ha hlt]
        intro e he
        rcases List.mem_append.mp he with hold | hnew
        · exact hl e hold
        · rw [List.mem_singleton] at hnew
          rw [hnew]
          exact List.mem_map_of_mem (fun g => (g.ID, g.Port)) (List.getElem?_mem hg)
  | release _ u err hr =>
    cases hget : sessionsGet o.sessions u with
    | none =>
      rw [release_of_absent o u hget] at hr
      cases hr
      exact hl
    | some s =>
      rw [release_of_lease o u s hinv hget] at hr
      cases hr
      intro e he
      exact hl e ((mem_sessionsDelete _ _ _).mp he).1
  | cleanup _ order now hp hc =>
    obtain ⟨o'', hc', _, _, _, hsess, _⟩ := cleanupExpiredIn_perm now order o hinv hp
    rw [hc] at hc'
    cases hc'
    intro e he
    rw [hsess] at he
    exact hl e (List.mem_filter.mp he).1

theorem leaseLayout_reachableFrom (o₀ o : Orchestrator) (hinv : Inv o₀)
    (hl : ∀ e ∈ o₀.sessions, (e.2.GPUID, e.2.Port) ∈ slotLayout o₀.gpus)
    (h : ReachableFrom o₀ o) :
    ∀ e ∈ o.sessions, (e.2.GPUID, e.2.Port) ∈ slotLayout o.gpus := by
  induction h with
  | refl => exact hl
  | step o1 o2 hr1 hs ih =>
    exact leaseLayout_step o1 o2 (inv_reachableFrom o₀ o1 hinv hr1) ih hs

theorem mem_slotLayout_new (n : Nat) (basePort : Int) (p : Int × Int)
    (h : p ∈ slotLayout ((List.range n).map (newGPU basePort))) :
    p.2 = wrap64 (basePort + 10 * p.1) := by
  simp only [slotLayout, List.map_map, List.mem_map, List.mem_range] at h
  obtain ⟨i, _, rfl⟩ := h
  exact newGPU_port basePort i

theorem basePort_step (o o' : Orchestrator) (hs : Step o o') :
    o'.basePort = o.basePort := by
  cases hs with
  | claim u clk =>
    unfold Claim
    split
    · rfl
    · split <;> rfl
  | release _ u err hr =>
    unfold Release at hr
    split at hr
    · cases hr
      rfl
    · split at hr
      · cases hr
      · cases hr
        rfl
  | cleanup _ order now hp hc =>
    have key : ∀ (l : List (String × Session)) (a b : Orchestrator),
        CleanupExpiredIn l now a = some b → b.basePort = a.basePort := by
      intro l
      induction l with
      | nil =>
        intro a b h
        rw [cleanupExpiredIn_nil] at h
        cases h
        rfl
      | cons e rest ih =>
        intro a b h
        rw [cleanupExpiredIn_cons] at h
        cases h1 : cleanupStep now a e with
        | none => rw [h1] at h; cases h
        | some a1 =>
          rw [h1] at h
          have h2 : a1.basePort = a.basePort := by
            unfold cleanupStep at h1
            split at h1
            · split at h1
              · cases h1
              · cases h1
                rfl
            · cases h1
              rfl
          exact (ih a1 b h).trans h2
    exact key order o o' hc

theorem reachable_poolMaxPortFull : ReachableFrom poolMaxPort poolMaxPortFull :=
  ReachableFrom.step _ _
    (ReachableFrom.step _ _ ReachableFrom.refl (Step.claim poolMaxPort "alice" clockA))
    (Step.claim (Claim poolMaxPort "alice" clockA).1 "bob" clockB)

/-- C15 as stated fails: in the pool `NewOrchestrator(2, math.MaxInt64, 4h)` after
`Claim("alice")` and `Claim("bob")`, a state reached from it, the lease of `bob`
has `GPUID = 1` and `Port = -9223372036854775799`, not `basePort + 10*GPUID`. -/
theorem lease_port_wraps_around :
    NewOrchestrator 2 9223372036854775807 14400000000000 = some poolMaxPort ∧
    ReachableFrom poolMaxPort poolMaxPortFull ∧
    ∃ s : Session, sessionsGet poolMaxPortFull.sessions "bob" = some s ∧
      s.GPUID = 1 ∧ s.Port = -9223372036854775799 ∧
      s.Port ≠ poolMaxPortFull.basePort + 10 * s.GPUID :=
  ⟨newOrchestrator_poolMaxPort, reachable_poolMaxPortFull,
    ⟨{ UserID := "bob", GPUID := 1, Port := -9223372036854775799, PIN := "5321",
       StartedAt := 5002 }, by decide, rfl, rfl, by decide⟩⟩

/-- C15, amended. The slot table is fixed after construction: every `Claim`,
`Release` and `CleanupExpired` call that returns, with or without an error,
preserves the number of slots and the `ID` and `Port` of the slot at each index;
in every state reached from `NewOrchestrator(count, basePort, timeout)` there are
`count` slots, the slot at index `i` has `ID = i` and `Port = basePort + 10*i` in
64-bit wrap-around arithmetic, and every lease in the session table has
`Port = basePort + 10*GPUID` in the same arithmetic (the exact sum whenever that
sum is in the range of `int`). -/
theorem slot_table_fixed (count basePort timeout : Int) (o₀ o : Orchestrator)
    (h₀ : NewOrchestrator count basePort timeout = some o₀) (hr : ReachableFrom o₀ o) :
    (∀ o' : Orchestrator, Step o o' →
      o'.gpus.length = o.gpus.length ∧
      ∀ i : Nat, (o'.gpus[i]?).map (fun g => (g.ID, g.Port)) =
        (o.gpus[i]?).map (fun g => (g.ID, g.Port))) ∧
    (o.gpus.length : Int) = count ∧ o.basePort = basePort ∧
    (∀ (i : Nat) (g : GPU), o.gpus[i]? = some g →
      g.ID = (i : Int) ∧ g.Port = wrap64 (basePort + 10 * (i : Int))) ∧
    (∀ e ∈ o.sessions, e.2.Port = wrap64 (basePort + 10 * e.2.GPUID)) ∧
    (∀ x : Int, -(2 : Int) ^ 63 ≤ basePort + 10 * x → basePort + 10 * x < 2 ^ 63 →
      wrap64 (basePort + 10 * x) = basePort + 10 * x) := by
  obtain ⟨hc, hg₀, hs₀, hb₀, _⟩ := newOrchestrator_eq_some count basePort timeout o₀ h₀
  have hinv₀ := inv_new count basePort timeout o₀ h₀
  have hinv := inv_reachableFrom o₀ o hinv₀ hr
  have hlay := slotLayout_reachableFrom o₀ o hr
  have hmem : ∀ p ∈ slotLayout o.gpus, p.2 = wrap64 (basePort + 10 * p.1) := by
    intro p hp
    rw [hlay, hg₀] at hp
    exact mem_slotLayout_new _ _ p hp
  refine ⟨?_, ?_, ?_, ?_, ?_, fun x => wrap64_of_inRange _⟩
  · intro o' hs
    have hl := slotLayout_step o o' hs
    refine ⟨slotLayout_length _ _ hl, ?_⟩
    intro i
    have := congrArg (fun l => l[i]?) hl
    simpa [slotLayout, List.getElem?_map] using this
  · rw [slotLayout_length _ _ hlay, hg₀]
    simp only [List.length_map, List.length_range]
    omega
  · have hb : ∀ a, ReachableFrom o₀ a → a.basePort = o₀.basePort := by
      intro a ha
      induction ha with
      | refl => rfl
      | step o1 o2 _ hs ih => exact (basePort_step o1 o2 hs).trans ih
    rw [hb o hr, hb₀]
  · intro i g hg
    have hid := hinv.ids i g hg
    refine ⟨hid, ?_⟩
    have := hmem (g.ID, g.Port) (List.mem_map_of_mem (fun g => (g.ID, g.Port)) (List.getElem?_mem hg))
    rw [← hid]
    exact this
  · intro e he
    have hl := leaseLayout_reachableFrom o₀ o hinv₀ (by rw [hs₀]; intro e he; cases he) hr e he
    exact hmem _ hl

/-- Witness for C15: the pool of two slots after `Claim("alice")`. -/
theorem slot_table_fixed_witness :
    NewOrchestrator 2 47984 14400000000000 = some pool2 ∧ ReachableFrom pool2 poolAlice ∧
    ((∀ o' : Orchestrator, Step poolAlice o' →
      o'.gpus.length = poolAlice.gpus.length ∧
      ∀ i : Nat, (o'.gpus[i]?).map (fun g => (g.ID, g.Port)) =
        (poolAlice.gpus[i]?).map (fun g => (g.ID, g.Port))) ∧
    (poolAlice.gpus.length : Int) = 2 ∧ poolAlice.basePort = 47984 ∧
    (∀ (i : Nat) (g : GPU), poolAlice.gpus[i]? = some g →
      g.ID = (i : Int) ∧ g.Port = wrap64 (47984 + 10 * (i : Int))) ∧
    (∀ e ∈ poolAlice.sessions, e.2.Port = wrap64 (47984 + 10 * e.2.GPUID)) ∧
    (∀ x : Int, -(2 : Int) ^ 63 ≤ 47984 + 10 * x → 47984 + 10 * x < 2 ^ 63 →
      wrap64 (47984 + 10 * x) = 47984 + 10 * x)) :=
  ⟨newOrchestrator_pool2,
    ReachableFrom.step pool2 poolAlice ReachableFrom.refl (Step.claim pool2 "alice" clockA),
    slot_table_fixed 2 47984 14400000000000 pool2 poolAlice newOrchestrator_pool2
      (ReachableFrom.step pool2 poolAlice ReachableFrom.refl (Step.claim pool2 "alice" clockA))⟩

/-- C16. End-to-end example: `NewOrchestrator(2, 47984, timeout)` returns a pool
whose slots have ports 47984 and 47994; `Claim("alice")` returns `GPUID` 0 and
port 47984; `Claim("bob")` returns `GPUID` 1 and port 47994; `Claim("carol")`
fails with `ErrNoAvailableGPU`, whose status is 503; `Release("alice")` succeeds;
`Claim("carol")` then returns `GPUID` 0 and port 47984.  This holds for every
timeout and all clock readings. -/
theorem end_to_end_example (timeout : Int) (c₁ c₂ c₃ c₄ : ClaimClock) :
    ∃ (o₀ o₁ o₂ o₃ o₄ : Orchestrator) (s₁ s₂ s₄ : Session),
      NewOrchestrator 2 47984 timeout = some o₀ ∧
      o₀.gpus.map (fun g => g.Port) = [47984, 47994] ∧
      Claim o₀ "alice" c₁ = (o₁, some s₁, none) ∧ s₁.GPUID = 0 ∧ s₁.Port = 47984 ∧
      Claim o₁ "bob" c₂ = (o₂, some s₂, none) ∧ s₂.GPUID = 1 ∧ s₂.Port = 47994 ∧
      Claim o₂ "carol" c₃ = (o₂, none, some ErrNoAvailableGPU) ∧
      ErrNoAvailableGPU.Status = 503 ∧
      Release o₂ "alice" = some (o₃, none) ∧
      Claim o₃ "carol" c₄ = (o₄, some s₄, none) ∧ s₄.GPUID = 0 ∧ s₄.Port = 47984 :=
  ⟨_, _, _, _, _, _, _, _, rfl, rfl, rfl, rfl, rfl, rfl, rfl, rfl, rfl, rfl, rfl, rfl, rfl, rfl⟩

/-! ## The handlers -/

theorem claimHandler_cases (o : Orchestrator) (userID : String) (clk : ClaimClock) :
    (userID = "" ∧ claimHandler o userID clk = (o, writeError "user_id required" 400)) ∨
    (userID ≠ "" ∧ sessionsGet o.sessions userID = none ∧
      (∀ g ∈ o.gpus, g.Available = false) ∧
      claimHandler o userID clk = (o, writeError "no GPU available" 503)) ∨
    (userID ≠ "" ∧
      ¬ (sessionsGet o.sessions userID = none ∧ ∀ g ∈ o.gpus, g.Available = false) ∧
      ∃ s : Session, (Claim o userID clk).2.1 = some s ∧
        claimHandler o userID clk =
          ((Claim o userID clk).1, { status := 200, body := Body.json (some s) })) := by
  by_cases hu : userID = ""
  · left
    exact ⟨hu, by simp [claimHandler, hu]⟩
  · right
    cases hget : sessionsGet o.sessions userID with
    | some s =>
      right
      refine ⟨hu, (fun h => by cases h.1), s, ?_, ?_⟩
      · rw [claim_of_lease o userID clk s hget]
      · simp [claimHandler, hu, claim_of_lease o userID clk s hget]
    | none =>
      rcases claimScan_spec userID clk.sessionStart o.gpus with
        ⟨_, hall⟩ | ⟨i, g, hg, ha, hlt, _⟩
      · left
        refine ⟨hu, rfl, hall, ?_⟩
        simp [claimHandler, hu, claim_of_full o userID clk hget hall, ErrNoAvailableGPU]
      · right
        refine ⟨hu, ?_, newSession userID clk (markClaimed userID clk.sessionStart g), ?_, ?_⟩
        · rintro ⟨_, hall⟩
          have := hall g (List.getElem?_mem hg)
          rw [ha] at this
          cases this
        · rw [claim_of_free o userID clk hget i g hg ha hlt]
        · simp [claimHandler, hu, claim_of_free o userID clk hget i g hg ha hlt]

theorem releaseHandler_cases (o : Orchestrator) (hinv : Inv o) (userID : String) :
    (userID = "" ∧ releaseHandler o userID = some (o, writeError "user_id required" 400)) ∨
    (userID ≠ "" ∧ sessionsGet o.sessions userID = none ∧
      releaseHandler o userID = some (o, writeError "session not found" 404)) ∨
    (userID ≠ "" ∧ ∃ s : Session, sessionsGet o.sessions userID = some s ∧
      releaseHandler o userID =
        some (freeLease markReleased o userID s, { status := 200, body := Body.empty })) := by
  by_cases hu : userID = ""
  · left
    exact ⟨hu, by simp [releaseHandler, hu]⟩
  · right
    cases hget : sessionsGet o.sessions userID with
    | none =>
      left
      refine ⟨hu, rfl, ?_⟩
      simp [releaseHandler, hu, release_of_absent o userID hget, ErrSessionNotFound]
    | some s =>
      right
      refine ⟨hu, s, rfl, ?_⟩
      simp [releaseHandler, hu, release_of_lease o userID s hinv hget]

/-- C17. Adapter status mapping, in every reachable pool state and for every
`user_id` parameter.  The claim handler answers 400 exactly when `user_id` is
empty, and then leaves the pool untouched; 503 exactly when `user_id` is
non-empty, has no lease and no slot is available; and otherwise 200 with the
lease returned by `Claim`.  The release handler returns (it does not panic) and
answers 400 exactly when `user_id` is empty, leaving the pool untouched; 404
exactly when `user_id` is non-empty and has no lease; and otherwise 200 with an
empty body.  Neither handler answers 500. -/
theorem handler_status_mapping (o : Orchestrator) (h : Reachable o) (userID : String)
    (clk : ClaimClock) :
    ((claimHandler o userID clk).2.status = 400 ↔ userID = "") ∧
    (userID = "" → (claimHandler o userID clk).1 = o) ∧
    ((claimHandler o userID clk).2.status = 503 ↔
      (userID ≠ "" ∧ sessionsGet o.sessions userID = none ∧
        ∀ g ∈ o.gpus, g.Available = false)) ∧
    ((claimHandler o userID clk).2.status ≠ 400 → (claimHandler o userID clk).2.status ≠ 503 →
      ∃ s : Session, (Claim o userID clk).2.1 = some s ∧
        (claimHandler o userID clk).2 = { status := 200, body := Body.json (some s) }) ∧
    (claimHandler o userID clk).2.status ≠ 500 ∧
    ∃ (o' : Orchestrator) (r : Response), releaseHandler o userID = some (o', r) ∧
      (r.status = 400 ↔ userID = "") ∧
      (userID = "" → o' = o) ∧
      (r.status = 404 ↔ (userID ≠ "" ∧ sessionsGet o.sessions userID = none)) ∧
      (r.status ≠ 400 → r.status ≠ 404 → r = { status := 200, body := Body.empty }) ∧
      r.status ≠ 500 := by
  have hinv := inv_reachable o h
  refine ⟨?_, ?_, ?_, ?_, ?_, ?_⟩
  · rcases claimHandler_cases o userID clk with ⟨hu, hc⟩ | ⟨hu, _, _, hc⟩ | ⟨hu, _, s, _, hc⟩
    · rw [hc]
      exact ⟨fun _ => hu, fun _ => rfl⟩
    · rw [hc]
      exact ⟨(fun h => by cases h), fun h => absurd h hu⟩
    · rw [hc]
      exact ⟨(fun h => by cases h), fun h => absurd h hu⟩
  · intro hu
    rcases claimHandler_cases o userID clk with ⟨_, hc⟩ | ⟨hu', _⟩ | ⟨hu', _⟩
    · rw [hc]
    · exact absurd hu hu'
    · exact absurd hu hu'
  · rcases claimHandler_cases o userID clk with ⟨hu, hc⟩ | ⟨hu, hg, hall, hc⟩ | ⟨hu, hn, s, _, hc⟩
    · rw [hc]
      exact ⟨(fun h => by cases h), fun h => absurd hu h.1⟩
    · rw [hc]
      exact ⟨fun _ => ⟨hu, hg, hall⟩, fun _ => rfl⟩
    · rw [hc]
      exact ⟨(fun h => by cases h), fun h => absurd h.2 hn⟩
  · intro h400 h503
    rcases claimHandler_cases o userID clk with ⟨_, hc⟩ | ⟨_, _, _, hc⟩ | ⟨_, _, s, hs, hc⟩
    · rw [hc] at h400
      exact absurd rfl h400
    · rw [hc] at h503
      exact absurd rfl h503
    · exact ⟨s, hs, by rw [hc]⟩
  · rcases claimHandler_cases o userID clk with ⟨_, hc⟩ | ⟨_, _, _, hc⟩ | ⟨_, _, s, _, hc⟩ <;>
      rw [hc] <;> intro h <;> cases h
  · rcases releaseHandler_cases o hinv userID with ⟨hu, hc⟩ | ⟨hu, hg, hc⟩ | ⟨hu, s, hg, hc⟩
    · refine ⟨_, _, hc, ⟨fun _ => hu, fun _ => rfl⟩, fun _ => rfl,
        ⟨(fun h => by cases h), fun h => absurd hu h.1⟩, fun h => absurd rfl h, ?_⟩
      intro h
      cases h
    · refine ⟨_, _, hc, ⟨(fun h => by cases h), fun h => absurd h hu⟩, fun h => absurd h hu,
        ⟨fun _ => ⟨hu, hg⟩, fun _ => rfl⟩, fun _ h => absurd rfl h, ?_⟩
      intro h
      cases h
    · refine ⟨_, _, hc, ⟨(fun h => by cases h), fun h => absurd h hu⟩, fun h => absurd h hu,
        ⟨(fun h => by cases h), fun h => ?_⟩, fun _ _ => rfl, ?_⟩
      · rw [hg] at h
        cases h.2
      · intro h
        cases h

/-- Witness for C17: `alice`, who holds a lease, calls both handlers on `poolAlice`. -/
theorem handler_status_mapping_witness :
    Reachable poolAlice ∧
    (((claimHandler poolAlice "alice" clockB).2.status = 400 ↔ "alice" = "") ∧
    ("alice" = "" → (claimHandler poolAlice "alice" clockB).1 = poolAlice) ∧
    ((claimHandler poolAlice "alice" clockB).2.status = 503 ↔
      ("alice" ≠ "" ∧ sessionsGet poolAlice.sessions "alice" = none ∧
        ∀ g ∈ poolAlice.gpus, g.Available = false)) ∧
    ((claimHandler poolAlice "alice" clockB).2.status ≠ 400 →
      (claimHandler poolAlice "alice" clockB).2.status ≠ 503 →
      ∃ s : Session, (Claim poolAlice "alice" clockB).2.1 = some s ∧
        (claimHandler poolAlice "alice" clockB).2 =
          { status := 200, body := Body.json (some s) }) ∧
    (claimHandler poolAlice "alice" clockB).2.status ≠ 500 ∧
    ∃ (o' : Orchestrator) (r : Response), releaseHandler poolAlice "alice" = some (o', r) ∧
      (r.status = 400 ↔ "alice" = "") ∧
      ("alice" = "" → o' = poolAlice) ∧
      (r.status = 404 ↔ ("alice" ≠ "" ∧ sessionsGet poolAlice.sessions "alice" = none)) ∧
      (r.status ≠ 400 → r.status ≠ 404 → r = { status := 200, body := Body.empty }) ∧
      r.status ≠ 500) :=
  ⟨reachable_poolAlice, handler_status_mapping poolAlice reachable_poolAlice "alice" clockB⟩

/-! ## The slice handed out by `Status` -/

theorem readStatus_self (o : Orchestrator) : readStatus o o = Status o := by
  simp [readStatus, Status]

/-- Through the slice handed out by `Status` a reader sees the whole current slot
table, after any sequence of calls. -/
theorem readStatus_reachableFrom (o o' : Orchestrator) (h : ReachableFrom o o') :
    readStatus o o' = o'.gpus := by
  have hlen : o'.gpus.length = o.gpus.length :=
    slotLayout_length _ _ (slotLayout_reachableFrom o o' h)
  unfold readStatus Status
  rw [← hlen]
  exact List.take_length o'.gpus

/-- C18, evaluated in one thread on the pool `pool2`: the slice handed out by
`Status`, whose slot 0 is available at the time of the call, shows after a later
`Claim("alice")` slot 0 unavailable and held by `alice`; what the reader sees is
no longer the state at the time of the call. -/
theorem status_view_shows_later_claim :
    Status pool2 =
      [ { ID := 0, Available := true, UserID := "", SessionStart := 0, Port := 47984 },
        { ID := 1, Available := true, UserID := "", SessionStart := 0, Port := 47994 } ] ∧
    (Claim pool2 "alice" clockA).1 = poolAlice ∧
    readStatus pool2 poolAlice =
      [ { ID := 0, Available := false, UserID := "alice", SessionStart := 1000, Port := 47984 },
        { ID := 1, Available := true, UserID := "", SessionStart := 0, Port := 47994 } ] ∧
    readStatus pool2 poolAlice ≠ Status pool2 :=
  ⟨rfl, rfl, by decide, by decide⟩

/-! ## The pairing token -/

/-- For a clock reading before 1970 the value is below 1000, Go's `%` keeping the
sign of the dividend. -/
theorem generatePIN_negative_reading :
    generatePIN (-1) = "999" ∧ generatePIN (-8999) = "-7999" :=
  ⟨by decide, by decide⟩

theorem toDigits_four (m : Nat) (h₁ : 1000 ≤ m) (h₂ : m ≤ 9999) :
    Nat.toDigits 10 m =
      [Nat.digitChar (m / 1000), Nat.digitChar (m / 100 % 10), Nat.digitChar (m / 10 % 10),
        Nat.digitChar (m % 10)] := by
  obtain ⟨k, rfl⟩ : ∃ k, m = k + 3 := ⟨m - 3, by omega⟩
  have e1 : (k + 3) / 10 ≠ 0 := by omega
  have e2 : (k + 3) / 10 / 10 ≠ 0 := by omega
  have e3 : (k + 3) / 10 / 10 / 10 ≠ 0 := by omega
  have e4 : (k + 3) / 10 / 10 / 10 / 10 = 0 := by omega
  have d2 : (k + 3) / 10 / 10 % 10 = (k + 3) / 100 % 10 := by omega
  have d3 : (k + 3) / 10 / 10 / 10 % 10 = (k + 3) / 1000 := by omega
  show Nat.toDigitsCore 10 (k + 3 + 1) (k + 3) [] = _
  simp only [Nat.toDigitsCore, e1, e2, e3, e4, if_false, if_true, d2, d3]

theorem digitChar_isDigit : ∀ d < 10, (Nat.digitChar d).isDigit = true := by
  decide

theorem digitChar_ne_zero : ∀ d < 10, 1 ≤ d → Nat.digitChar d ≠ '0' := by
  decide

theorem generatePIN_of_nonneg (n : Nat) :
    generatePIN (n : Int) = Nat.repr (1000 + n % 9000) := by
  have h : (1000 : Int) + Int.tmod (n : Int) 9000 = ((1000 + n % 9000 : Nat) : Int) := by
    rw [Int.tmod_eq_emod (by omega) (by omega)]
    omega
  unfold generatePIN
  rw [h]
  rfl

/-- C19. The pairing token is a 4-digit PIN: for every non-negative nanosecond
clock reading `t`, `generatePIN` returns the decimal representation of
`1000 + (t mod 9000)`, an integer between 1000 and 9999 inclusive; the string
consists of exactly four characters, the decimal digits of that number, with no
sign and no leading zero. -/
theorem generatePIN_four_digits (t : Int) (ht : 0 ≤ t) :
    ∃ n : Nat, (n : Int) = 1000 + t % 9000 ∧ 1000 ≤ n ∧ n ≤ 9999 ∧
      generatePIN t = toString (1000 + t % 9000) ∧
      generatePIN t = Nat.repr n ∧
      (generatePIN t).data =
        [Nat.digitChar (n / 1000), Nat.digitChar (n / 100 % 10), Nat.digitChar (n / 10 % 10),
          Nat.digitChar (n % 10)] ∧
      (generatePIN t).length = 4 ∧
      (∀ c ∈ (generatePIN t).data, c.isDigit = true) ∧
      (generatePIN t).data.head? ≠ some '0' := by
  obtain ⟨m, rfl⟩ : ∃ m : Nat, t = (m : Int) := ⟨t.toNat, by omega⟩
  have hlo : 1000 ≤ 1000 + m % 9000 := by omega
  have hhi : 1000 + m % 9000 ≤ 9999 := by omega
  have hcast : ((1000 + m % 9000 : Nat) : Int) = 1000 + (m : Int) % 9000 := by omega
  have hrepr := generatePIN_of_nonneg m
  have hdata : (generatePIN (m : Int)).data =
      [Nat.digitChar ((1000 + m % 9000) / 1000), Nat.digitChar ((1000 + m % 9000) / 100 % 10),
        Nat.digitChar ((1000 + m % 9000) / 10 % 10), Nat.digitChar ((1000 + m % 9000) % 10)] := by
    rw [hrepr]
    show Nat.toDigits 10 (1000 + m % 9000) = _
    exact toDigits_four _ hlo hhi
  refine ⟨1000 + m % 9000, hcast, hlo, hhi, ?_, hrepr, hdata, ?_, ?_, ?_⟩
  · rw [hrepr, ← hcast]
    rfl
  · show (generatePIN (m : Int)).data.length = 4
    rw [hdata]
    rfl
  · intro c hc
    rw [hdata] at hc
    simp only [List.mem_cons, List.mem_singleton, List.not_mem_nil, or_false] at hc
    rcases hc with rfl | rfl | rfl | rfl
    · exact digitChar_isDigit _ (by omega)
    · exact digitChar_isDigit _ (by omega)
    · exact digitChar_isDigit _ (by omega)
    · exact digitChar_isDigit _ (by omega)
  · rw [hdata]
    intro h
    simp only [List.head?_cons, Option.some.injEq] at h
    exact digitChar_ne_zero _ (by omega) (by omega) h

/-- Witness for C19: the clock reading 1234567 gives the PIN `2567`. -/
theorem generatePIN_four_digits_witness :
    (0 : Int) ≤ 1234567 ∧
    ∃ n : Nat, (n : Int) = 1000 + (1234567 : Int) % 9000 ∧ 1000 ≤ n ∧ n ≤ 9999 ∧
      generatePIN 1234567 = toString (1000 + (1234567 : Int) % 9000) ∧
      generatePIN 1234567 = Nat.repr n ∧
      (generatePIN 1234567).data =
        [Nat.digitChar (n / 1000), Nat.digitChar (n / 100 % 10), Nat.digitChar (n / 10 % 10),
          Nat.digitChar (n % 10)] ∧
      (generatePIN 1234567).length = 4 ∧
      (∀ c ∈ (generatePIN 1234567).data, c.isDigit = true) ∧
      (generatePIN 1234567).data.head? ≠ some '0' :=
  ⟨by decide, generatePIN_four_digits 1234567 (by decide)⟩

/-- C20. Index safety: in every state reachable from `NewOrchestrator` by `Claim`,
`Release` and `CleanupExpired` calls, every lease in the session table has
`0 <= GPUID < len(gpus)`; hence the indexing `o.gpus[session.GPUID]` is in
bounds and neither `Release`, for any user, nor `CleanupExpired`, for any clock
reading and any order of visiting the map, panics. -/
theorem index_safety (o : Orchestrator) (h : Reachable o) :
    (∀ e ∈ o.sessions, 0 ≤ e.2.GPUID ∧ e.2.GPUID < (o.gpus.length : Int)) ∧
    (∀ e ∈ o.sessions, ∀ f : GPU → GPU, updateGPU f o.gpus e.2.GPUID ≠ none) ∧
    (∀ u : String, ∃ (o' : Orchestrator) (err : Option HTTPError),
      Release o u = some (o', err)) ∧
    (∀ (now : Time) (order : List (String × Session)), order.Perm o.sessions →
      ∃ o' : Orchestrator, CleanupExpiredIn order now o = some o') ∧
    (∀ now : Time, ∃ o' : Orchestrator, CleanupExpired now o = some o') := by
  have hinv := inv_reachable o h
  have hrange : ∀ e ∈ o.sessions, 0 ≤ e.2.GPUID ∧ e.2.GPUID < (o.gpus.length : Int) := by
    intro e he
    obtain ⟨_, g, hslot, _, _⟩ := hinv.lease e.1 e.2 he
    obtain ⟨h0, h1, _⟩ := slotAt_eq_some _ _ _ hslot
    exact ⟨h0, h1⟩
  refine ⟨hrange, ?_, ?_, ?_, ?_⟩
  · intro e he f
    obtain ⟨h0, h1⟩ := hrange e he
    simp [updateGPU, h0, h1]
  · intro u
    cases hget : sessionsGet o.sessions u with
    | none => exact ⟨_, _, release_of_absent o u hget⟩
    | some s => exact ⟨_, _, release_of_lease o u s hinv hget⟩
  · intro now order hp
    obtain ⟨o', hc, _⟩ := cleanupExpiredIn_perm now order o hinv hp
    exact ⟨o', hc⟩
  · intro now
    obtain ⟨o', hc, _⟩ := cleanupExpiredIn_perm now o.sessions o hinv (List.Perm.refl _)
    exact ⟨o', hc⟩

/-- Witness for C20: the full pool `poolFull`. -/
theorem index_safety_witness :
    Reachable poolFull ∧
    ((∀ e ∈ poolFull.sessions, 0 ≤ e.2.GPUID ∧ e.2.GPUID < (poolFull.gpus.length : Int)) ∧
    (∀ e ∈ poolFull.sessions, ∀ f : GPU → GPU, updateGPU f poolFull.gpus e.2.GPUID ≠ none) ∧
    (∀ u : String, ∃ (o' : Orchestrator) (err : Option HTTPError),
      Release poolFull u = some (o', err)) ∧
    (∀ (now : Time) (order : List (String × Session)), order.Perm poolFull.sessions →
      ∃ o' : Orchestrator, CleanupExpiredIn order now poolFull = some o') ∧
    (∀ now : Time, ∃ o' : Orchestrator, CleanupExpired now poolFull = some o')) :=
  ⟨reachable_poolFull, index_safety poolFull reachable_poolFull⟩

end GpuPool
